import Mathlib

/-!
Shallow embedding of the collection pipeline of `app.py`
(ORCID → DOI → Crossref → Event Data → table), together with proofs about
its normalizer, DOI extraction, mention aggregation, pipeline and
column-reconciliation logic.  Python strings are modelled as `String`
(lists of characters), Python `None` as `Option.none`, dictionaries as
insertion-ordered association lists, and the upstream HTTP services as
explicit oracle functions passed to the pipeline.
-/

deriving instance DecidableEq for Except

namespace App

/-- ASCII characters Python's `str.strip()` removes. -/
def pyIsSpace (c : Char) : Bool :=
  c = ' ' || c = '\t' || c = '\n' || c = '\r' || c = '\x0b' || c = '\x0c'

/-- Python `str.strip()` on the character list of a string. -/
def pyStripL (cs : List Char) : List Char :=
  ((cs.dropWhile pyIsSpace).reverse.dropWhile pyIsSpace).reverse

/-- Python `str.strip()`. -/
def pyStrip (s : String) : String := ⟨pyStripL s.data⟩

/-- Truthiness of an optional string in Python: `None` and `""` are falsy. -/
def pyTruthy : Option String → Bool
  | none => false
  | some s => s ≠ ""

/-- Python `a or b` where `a` is an optional string and `b` a string default. -/
def pyOrS (a : Option String) (b : String) : String :=
  match a with
  | some s => if s = "" then b else s
  | none => b

/-- The function `normalizar_orcid` of `app.py`: strip surrounding whitespace,
drop every space character, and if the hyphen-free content has exactly 16
characters reformat it as four hyphen-separated groups of four; otherwise
return the space-stripped trimmed input unchanged. -/
def normalizar_orcid (orcid : String) : String :=
  let o : List Char := (pyStripL orcid.data).filter (fun c => c ≠ ' ')
  let raw : List Char := o.filter (fun c => c ≠ '-')
  if raw.length = 16 then
    ⟨raw.take 4 ++ '-' :: ((raw.drop 4).take 4 ++
      '-' :: ((raw.drop 8).take 4 ++ '-' :: (raw.drop 12).take 4))⟩
  else ⟨o⟩

/-- Characters allowed by the regex suffix class `[^\s"<>]`. -/
def allowedTail (c : Char) : Bool :=
  !(pyIsSpace c || c = '"' || c = '<' || c = '>')

/-- Trailing punctuation removed by `.rstrip(").,;]")`. -/
def doiPunct (c : Char) : Bool :=
  c = ')' || c = '.' || c = ',' || c = ';' || c = ']'

/-- Python `str.rstrip(").,;]")`. -/
def rstripPunct (cs : List Char) : List Char :=
  (cs.reverse.dropWhile doiPunct).reverse

/-- Greedy match of the regex `10\.\d{4,9}/[^\s"<>]+` at the head of `cs`:
returns the matched characters, or `none` when no match starts here. -/
def matchDoiHere (cs : List Char) : Option (List Char) :=
  match cs with
  | c1 :: c2 :: c3 :: rest =>
    if c1 = '1' ∧ c2 = '0' ∧ c3 = '.' then
      if 4 ≤ (rest.takeWhile Char.isDigit).length ∧
          (rest.takeWhile Char.isDigit).length ≤ 9 then
        match rest.drop (rest.takeWhile Char.isDigit).length with
        | c4 :: rest2 =>
          if c4 = '/' then
            if rest2.takeWhile allowedTail = [] then none
            else some ('1' :: '0' :: '.' ::
              (rest.takeWhile Char.isDigit ++ '/' :: rest2.takeWhile allowedTail))
          else none
        | [] => none
      else none
    else none
  | _ => none

/-- Leftmost match of the DOI regex, as found by Python `re.search`. -/
def searchDoi : List Char → Option (List Char)
  | [] => none
  | c :: cs =>
    match matchDoiHere (c :: cs) with
    | some m => some m
    | none => searchDoi cs

/-- The function `extrair_doi_de_texto` of `app.py`; the argument `none`
models Python `None`. -/
def extrair_doi_de_texto : Option String → Option String
  | none => none
  | some t =>
    if t = "" then none
    else
      match searchDoi (pyStripL t.data) with
      | some m => some ⟨rstripPunct m⟩
      | none => none

/-- Cell values of the output table: Python `None`, an integer, or a string. -/
inductive Value
  | vnull
  | vint (n : Int)
  | vstr (s : String)
deriving DecidableEq, Repr

/-- Insertion-ordered association list modelling a Python `dict`. -/
abbrev Dict (α : Type) := List (String × α)

/-- Lookup in a Python dictionary. -/
def dictGet? {α : Type} : Dict α → String → Option α
  | [], _ => none
  | (k', v) :: rest, k => if k' = k then some v else dictGet? rest k

/-- Assignment `d[k] = v` on a Python dictionary: overwrite in place, or
append a new key at the end. -/
def dictInsert {α : Type} : Dict α → String → α → Dict α
  | [], k, v => [(k, v)]
  | (k', v') :: rest, k, v =>
    if k' = k then (k, v) :: rest else (k', v') :: dictInsert rest k v

/-- Keys of a dictionary in insertion order. -/
def dictKeys {α : Type} (d : Dict α) : List String := d.map Prod.fst

/-- Python `d.get(k, default)` for integer-valued dictionaries. -/
def pyGetInt (d : Dict Int) (k : String) (dflt : Int) : Int :=
  (dictGet? d k).getD dflt

/-- One event of the mention feed; only its `source` field is consumed. -/
structure Event where
  source : Option String
deriving DecidableEq, Repr

/-- One JSON page of the mention feed, reduced to the fields the loop reads
(`message.events`, absent modelled as `[]`, and `message.next-cursor`). -/
structure EventPage where
  events : List Event
  nextCursor : Option String
deriving DecidableEq, Repr

/-- Parameters of one page request of `eventdata_por_doi`. -/
structure EdRequest where
  objId : String
  mailto : Option String
  rows : Nat
  cursor : Option String
deriving DecidableEq, Repr

/-- Source label under which one event is tallied:
`(ev.get("source") or "unknown").strip()` in `app.py`. -/
def srcOf (ev : Event) : String := pyStrip (pyOrS ev.source "unknown")

/-- Tally a page of events into the per-source counters. -/
def tallyEvents (acc : Dict Int) (evs : List Event) : Dict Int :=
  evs.foldl (fun a ev => dictInsert a (srcOf ev) (pyGetInt a (srcOf ev) 0 + 1)) acc

/-- The pagination loop of `eventdata_por_doi`.  `feed` abstracts
`requests.get` on the events endpoint (an `Except.error` models a raised
HTTP error).  The Python loop counts `page` up from 1 and breaks before
requesting once `page > max_pages`; here the counter is recast as the
countdown `remaining = max_pages - page`, so the recursion is structural.
Returns the loop outcome together with the number of page requests issued. -/
def edGo (feed : EdRequest → Except Unit EventPage) (doi email : String)
    (rows : Nat) : Nat → Option String → Dict Int → Except Unit (Dict Int) × Nat
  | 0, _, acc => (Except.ok acc, 0)
  | remaining + 1, cursor, acc =>
    let req : EdRequest :=
      ⟨"https://doi.org/" ++ doi, if email = "" then none else some email, rows, cursor⟩
    match feed req with
    | Except.error e => (Except.error e, 1)
    | Except.ok pg =>
      if pg.events = [] then (Except.ok acc, 1)
      else
        let acc2 := tallyEvents acc pg.events
        if pyTruthy pg.nextCursor = false ∨ pg.nextCursor = cursor then (Except.ok acc2, 1)
        else
          let res := edGo feed doi email rows remaining pg.nextCursor acc2
          (res.1, res.2 + 1)

/-- The fixed-source part of the output of `eventdata_por_doi`:
one column per configured source, value `int(contagem.get(s, 0))`. -/
def edFixedOut (fontes_fixas : List String) (tally : Dict Int) : Dict Value :=
  fontes_fixas.foldl (fun d s =>
    dictInsert d ("eventdata_source_" ++ s) (Value.vint (pyGetInt tally s 0))) []

/-- The second output loop of `eventdata_por_doi`: append any tallied source
whose column is not yet present. -/
def edExtraOut (out : Dict Value) (tally : Dict Int) : Dict Value :=
  tally.foldl (fun d kv =>
    if (dictGet? d ("eventdata_source_" ++ kv.1)).isSome then d
    else dictInsert d ("eventdata_source_" ++ kv.1) (Value.vint kv.2)) out

/-- The function `eventdata_por_doi` of `app.py`: runs the pagination loop
and assembles the output dictionary (one column per configured fixed source,
defaulting to 0, then any further tallied sources in tally order).  Returns
the result (or the propagated upstream error) together with the number of
page requests issued. -/
def eventdata_por_doi (feed : EdRequest → Except Unit EventPage)
    (doi email : String) (fontes_fixas : List String) (rows maxPages : Nat) :
    Except Unit (Dict Value) × Nat :=
  let res := edGo feed doi email rows maxPages none []
  match res.1 with
  | Except.error e => (Except.error e, res.2)
  | Except.ok tally => (Except.ok (edExtraOut (edFixedOut fontes_fixas tally) tally), res.2)

/-- Python `str.lower()` (ASCII case folding). -/
def pyLower (s : String) : String := ⟨s.data.map Char.toLower⟩

/-- One external identifier of a work detail (type and value fields,
absent fields are `none`). -/
structure ExtId where
  idType : Option String
  idValue : Option String
deriving DecidableEq, Repr

/-- A work-detail record, reduced to its external identifier list
(`work_detail["external-ids"]["external-id"]`, absent modelled as `[]`). -/
structure WorkDetail where
  ext_ids : List ExtId
deriving DecidableEq, Repr

/-- Test of the first loop of `extrair_doi_do_work_orcid`:
`(eid.get("external-id-type") or "").lower() == "doi"`. -/
def isDoiTyped (e : ExtId) : Bool := pyLower (pyOrS e.idType "") = "doi"

/-- First loop of `extrair_doi_do_work_orcid`: at the first identifier typed
"doi" the function returns (`some r`) the value of
`extrair_doi_de_texto(valor) or (valor or None)`; `none` means the loop fell
through to the second loop. -/
def doiLoop1 : List ExtId → Option (Option String)
  | [] => none
  | e :: rest =>
    if isDoiTyped e then
      let valor := pyStrip (pyOrS e.idValue "")
      some (if pyTruthy (extrair_doi_de_texto (some valor)) then
              extrair_doi_de_texto (some valor)
            else if valor = "" then none else some valor)
    else doiLoop1 rest

/-- Second loop of `extrair_doi_do_work_orcid`: the first extractable DOI
among all external identifier values. -/
def doiLoop2 : List ExtId → Option String
  | [] => none
  | e :: rest =>
    let d := extrair_doi_de_texto (some (pyStrip (pyOrS e.idValue "")))
    if pyTruthy d then d else doiLoop2 rest

/-- The function `extrair_doi_do_work_orcid` of `app.py`. -/
def extrair_doi_do_work_orcid (wd : WorkDetail) : Option String :=
  match doiLoop1 wd.ext_ids with
  | some r => r
  | none => doiLoop2 wd.ext_ids

/-- One work summary as built by `listar_works_orcid`; the field values are
opaque table cells. -/
structure Work where
  put_code : Value
  title : Value
  type : Value
  publication_year_orcid : Value
  source_orcid : Value
deriving DecidableEq, Repr

/-- The five-field dictionary produced by `crossref_por_doi`; the oracle
returns the record directly, abstracting the JSON plumbing. -/
structure CrossrefRec where
  is_referenced_by : Value
  references_count : Value
  container_title : Value
  publisher : Value
  issued_year : Value
deriving DecidableEq, Repr

/-- The dictionary `crossref_por_doi` returns. -/
def crossrefDict (c : CrossrefRec) : Dict Value :=
  [("crossref_is_referenced_by_count", c.is_referenced_by),
   ("crossref_references_count", c.references_count),
   ("crossref_container_title", c.container_title),
   ("crossref_publisher", c.publisher),
   ("crossref_issued_year", c.issued_year)]

/-- The all-`None` metadata dictionary substituted when the Crossref call
fails. -/
def crossrefNulls : Dict Value :=
  [("crossref_is_referenced_by_count", Value.vnull),
   ("crossref_references_count", Value.vnull),
   ("crossref_container_title", Value.vnull),
   ("crossref_publisher", Value.vnull),
   ("crossref_issued_year", Value.vnull)]

/-- Python `dict.update`: insert every binding of `upd` in order. -/
def dictUpdate {α : Type} (d upd : Dict α) : Dict α :=
  upd.foldl (fun acc kv => dictInsert acc kv.1 kv.2) d

/-- The loop `for s in fontes_fixas: linha[f"eventdata_source_{s}"] = 0`. -/
def setZeros (d : Dict Value) (fontes : List String) : Dict Value :=
  fontes.foldl (fun acc s => dictInsert acc ("eventdata_source_" ++ s) (Value.vint 0)) d

/-- The upstream services consumed by the pipeline, as oracles: `listWorks`
abstracts `listar_works_orcid` (an error carries the exception message that
is interpolated into the log line), `detail` abstracts
`detalhes_work_orcid`, `crossref` abstracts `crossref_por_doi` and `edFeed`
abstracts `requests.get` against the events endpoint. -/
structure Upstream where
  listWorks : String → Except String (List Work)
  detail : String → Value → Except Unit WorkDetail
  crossref : String → String → Except Unit CrossrefRec
  edFeed : EdRequest → Except Unit EventPage

/-- One `log_cb` call of the pipeline, one constructor per call site,
carrying the data interpolated into the message. -/
inductive LogEntry
  | orcidHeader (idx total : Nat) (orcid : String)
  | worksCount (n : Nat)
  | workLine (i total : Nat) (put_code : Value) (title : Value)
  | listError (orcid : String) (msg : String)
deriving DecidableEq, Repr

/-- The row `coletar_para_lista_orcids` assembles for work `w` of `orcid`:
base cells, then Crossref cells and mention tallies (or their failure
defaults) when a DOI was resolved, else zeroed fixed mention columns. -/
def buildRow (up : Upstream) (email : String) (fontes : List String)
    (rows maxPages : Nat) (orcid : String) (w : Work) : Dict Value :=
  let doi : Option String :=
    match up.detail orcid w.put_code with
    | Except.error _ => none
    | Except.ok det => extrair_doi_do_work_orcid det
  let linha : Dict Value :=
    [("orcid", Value.vstr orcid),
     ("put_code", w.put_code),
     ("title", w.title),
     ("type", w.type),
     ("publication_year_orcid", w.publication_year_orcid),
     ("source_orcid", w.source_orcid),
     ("doi", match doi with | none => Value.vnull | some d => Value.vstr d)]
  if pyTruthy doi then
    let d := doi.getD ""
    let linha2 :=
      match up.crossref d email with
      | Except.ok c => dictUpdate linha (crossrefDict c)
      | Except.error _ => dictUpdate linha crossrefNulls
    match (eventdata_por_doi up.edFeed d email fontes rows maxPages).1 with
    | Except.ok out => dictUpdate linha2 out
    | Except.error _ => setZeros linha2 fontes
  else setZeros linha fontes

/-- Body of `coletar_para_lista_orcids` from the `idx`-th identifier on;
`total` is the length of the whole input list. -/
def coletarGo (up : Upstream) (email : String) (fontes : List String)
    (rows maxPages : Nat) (total : Nat) :
    Nat → List String → List (Dict Value) × List LogEntry
  | _, [] => ([], [])
  | idx, orcid_in :: rest =>
    let orcid := normalizar_orcid orcid_in
    let hd : LogEntry := .orcidHeader idx total orcid
    match up.listWorks orcid with
    | Except.error e =>
      let res := coletarGo up email fontes rows maxPages total (idx + 1) rest
      (res.1, hd :: .listError orcid e :: res.2)
    | Except.ok works =>
      let wlogs := (List.enumFrom 1 works).map
        (fun p => LogEntry.workLine p.1 works.length p.2.put_code p.2.title)
      let res := coletarGo up email fontes rows maxPages total (idx + 1) rest
      (works.map (buildRow up email fontes rows maxPages orcid) ++ res.1,
       hd :: .worksCount works.length :: (wlogs ++ res.2))

/-- The function `coletar_para_lista_orcids` of `app.py`: the emitted rows
plus the log lines emitted through `log_cb`. -/
def coletar_para_lista_orcids (up : Upstream) (orcids : List String)
    (email : String) (fontes : List String) (rows maxPages : Nat) :
    List (Dict Value) × List LogEntry :=
  coletarGo up email fontes rows maxPages orcids.length 1 orcids

/-- First-appearance-order deduplication (pandas column union). -/
def firstDedupGo (seen : List String) : List String → List String
  | [] => []
  | c :: rest =>
    if c ∈ seen then firstDedupGo seen rest
    else c :: firstDedupGo (c :: seen) rest

/-- Columns of `pd.DataFrame(linhas)`: the union of the row keys in
first-appearance order. -/
def dfColumns (rws : List (Dict Value)) : List String :=
  firstDedupGo [] (rws.flatMap dictKeys)

/-- The output table: the reconciled column list plus the row dictionaries
(a cell missing from a row is pandas `NaN`). -/
structure Table where
  cols : List String
  rws : List (Dict Value)
deriving DecidableEq, Repr

/-- Python `str.startswith`. -/
def pyStartsWith (s pat : String) : Bool := pat.data.isPrefixOf s.data

/-- Code-point lexicographic strict order on character lists (Python `<`
on strings). -/
def strLtL : List Char → List Char → Bool
  | _, [] => false
  | [], _ :: _ => true
  | a :: as, b :: bs =>
    if a.toNat < b.toNat then true
    else if b.toNat < a.toNat then false
    else strLtL as bs

/-- Python `a <= b` on strings: not `b < a`. -/
def strLeB (a b : String) : Bool := !(strLtL b.data a.data)

/-- The ordering Python `sorted` uses on strings, as a proposition. -/
def pyLeS (a b : String) : Prop := strLeB a b = true

instance : DecidableRel pyLeS := fun a b => instDecidableEqBool (strLeB a b) true

/-- The fixed base columns enumerated in `ordenar_colunas`. -/
def cols_base : List String :=
  ["orcid", "put_code", "title", "type", "publication_year_orcid", "source_orcid", "doi",
   "crossref_is_referenced_by_count", "crossref_references_count",
   "crossref_container_title", "crossref_publisher", "crossref_issued_year"]

/-- The column order computed by `ordenar_colunas` from the dataframe's
column list and the configured fixed sources; Python's stable `sorted` is
rendered as insertion sort by `≤` (both produce the unique sorted
arrangement of a list of strings). -/
def ordenarCols (cols : List String) (fontes_fixas : List String) : List String :=
  let cols_fixas := (fontes_fixas.map (fun s => "eventdata_source_" ++ s)).filter
    (fun c => decide (c ∈ cols))
  let cols_outras := (cols.filter
    (fun c => pyStartsWith c "eventdata_source_" && decide (c ∉ cols_fixas))).insertionSort pyLeS
  (cols_base.filter (fun c => decide (c ∈ cols))) ++ cols_fixas ++ cols_outras ++
    cols.filter (fun c => decide (c ∉ cols_base ++ cols_fixas ++ cols_outras))

/-- The function `ordenar_colunas` of `app.py`, applied to the dataframe
built from the pipeline's rows. -/
def ordenar_colunas (rws : List (Dict Value)) (fontes_fixas : List String) : Table :=
  ⟨ordenarCols (dfColumns rws) fontes_fixas, rws⟩

/-- The cell of row `i` at column `c`: `none` when the column does not exist
or the row misses it (pandas `NaN`). -/
def cellAt (t : Table) (i : Nat) (c : String) : Option Value :=
  if c ∈ t.cols then (t.rws.get? i).bind (fun r => dictGet? r c) else none

/-- Declarative reading of the extractor's contract, written from the spec:
`m` is the greedy match of `10.` followed by 4–9 digits, a slash and one or
more non-whitespace, non-angle-bracket, non-quote characters, at the very
start of `cs`. -/
def SpecMatch (cs m : List Char) : Prop :=
  ∃ ds suf rest, cs = '1' :: '0' :: '.' :: (ds ++ '/' :: (suf ++ rest)) ∧
    m = '1' :: '0' :: '.' :: (ds ++ '/' :: suf) ∧
    (∀ c ∈ ds, c.isDigit = true) ∧ 4 ≤ ds.length ∧ ds.length ≤ 9 ∧
    suf ≠ [] ∧ (∀ c ∈ suf, allowedTail c = true) ∧
    (∀ r rs, rest = r :: rs → allowedTail r = false)

/-- `DEFAULT_FONTES_FIXAS` of `app.py`. -/
def DEFAULT_FONTES_FIXAS : List String :=
  ["twitter", "news", "blogs", "reddit", "wikipedia", "facebook",
   "policy", "patent", "stackexchange", "youtube", "linkedin", "unknown"]

/-- The single work listed by the registry in the no-DOI scenario. -/
def scenarioWork : Work :=
  ⟨Value.vint 111, Value.vstr "T", Value.vstr "journal-article",
   Value.vint 2020, Value.vstr "S"⟩

/-- Upstream oracles of the no-DOI scenario: the registry lists exactly one
work whose detail carries no external identifiers (hence no DOI); the two
enrichment services are never reached (kept failing). -/
def scenarioUp : Upstream :=
  ⟨fun _ => Except.ok [scenarioWork],
   fun _ _ => Except.ok ⟨[]⟩,
   fun _ _ => Except.error (),
   fun _ => Except.error ()⟩

/-- A second registry work with different cell values (same shape), used to
compare two runs of the reconciler. -/
def scenarioWork2 : Work :=
  ⟨Value.vint 222, Value.vstr "U", Value.vnull, Value.vnull, Value.vnull⟩

/-- Upstream oracles of a second no-DOI run with different row values. -/
def scenarioUp2 : Upstream :=
  ⟨fun _ => Except.ok [scenarioWork2],
   fun _ _ => Except.ok ⟨[]⟩,
   fun _ _ => Except.error (),
   fun _ => Except.error ()⟩

/-- The base row dictionary the pipeline assembles in the no-DOI scenario,
before the zeroed fixed mention columns are appended. -/
def scenarioLinha : Dict Value :=
  [("orcid", Value.vstr "0000-0002-1825-0097"),
   ("put_code", Value.vint 111),
   ("title", Value.vstr "T"),
   ("type", Value.vstr "journal-article"),
   ("publication_year_orcid", Value.vint 2020),
   ("source_orcid", Value.vstr "S"),
   ("doi", Value.vnull)]

/-- The table the pipeline produces in the no-DOI scenario for the input
list `["0000-0002-1825-0097"]` and configured fixed sources `fontes`. -/
def scenarioTable (fontes : List String) : Table :=
  ordenar_colunas
    (coletar_para_lista_orcids scenarioUp ["0000-0002-1825-0097"] "a@b" fontes 1000 50).1
    fontes

example : normalizar_orcid "0000000218250097" = "0000-0002-1825-0097" := by decide
example : normalizar_orcid " 0000-0002-1825-0097 " = "0000-0002-1825-0097" := by decide
example : normalizar_orcid "a b" = "ab" := by decide
example : normalizar_orcid "00000002-18250097" = "0000-0002-1825-0097" := by decide
example : extrair_doi_de_texto (some "see 10.1234/abc.def). end") = some "10.1234/abc.def" := by decide
example : extrair_doi_de_texto (some "10.123/abc") = none := by decide
example : extrair_doi_de_texto (some "x 10.12345/a<b") = some "10.12345/a" := by decide
example : extrair_doi_de_texto (some "") = none := by decide
example : extrair_doi_de_texto none = none := by decide

example :
    (eventdata_por_doi (fun _ => Except.ok ⟨[⟨some "twitter"⟩, ⟨some " "⟩, ⟨none⟩], some "c"⟩)
      "10.1/x" "" ["twitter", "unknown"] 100 5).1 =
      Except.ok [("eventdata_source_twitter", Value.vint 2),
                 ("eventdata_source_unknown", Value.vint 2),
                 ("eventdata_source_", Value.vint 2)] := by decide

example :
    (eventdata_por_doi (fun r => Except.ok ⟨[⟨some "t"⟩], some (r.cursor.getD "" ++ "c")⟩)
      "10.1/x" "a@b" ["t"] 100 3).2 = 3 := by decide

example :
    extrair_doi_do_work_orcid ⟨[⟨some "DOI", some " 10.1234/xy "⟩]⟩ = some "10.1234/xy" := by
  decide

example :
    extrair_doi_do_work_orcid
      ⟨[⟨some "doi", some "   "⟩, ⟨some "url", some "https://doi.org/10.1234/xy"⟩]⟩ = none := by
  decide

example :
    extrair_doi_do_work_orcid
      ⟨[⟨some "issn", some "123"⟩, ⟨some "url", some "x 10.1234/ab"⟩]⟩ = some "10.1234/ab" := by
  decide

example : extrair_doi_do_work_orcid ⟨[⟨some "doi", some "doi:10"⟩]⟩ = some "doi:10" := by decide

example :
    ordenarCols ["doi", "orcid", "eventdata_source_zz", "eventdata_source_twitter",
      "eventdata_source_aa"] ["twitter"] =
      ["orcid", "doi", "eventdata_source_twitter", "eventdata_source_aa",
       "eventdata_source_zz"] := by decide

example : (scenarioTable DEFAULT_FONTES_FIXAS).rws.length = 1 := by decide
example : cellAt (scenarioTable DEFAULT_FONTES_FIXAS) 0 "doi" = some Value.vnull := by decide
example : cellAt (scenarioTable DEFAULT_FONTES_FIXAS) 0 "crossref_publisher" = none := by decide
example :
    cellAt (scenarioTable DEFAULT_FONTES_FIXAS) 0 "eventdata_source_news" =
      some (Value.vint 0) := by decide
example : decide ("crossref_publisher" ∈ (scenarioTable DEFAULT_FONTES_FIXAS).cols) = false := by
  decide

/-! ### Dictionary lemmas -/

@[simp] theorem dictKeys_nil {α : Type} : dictKeys ([] : Dict α) = [] := rfl

@[simp] theorem dictKeys_cons {α : Type} (kv : String × α) (d : Dict α) :
    dictKeys (kv :: d) = kv.1 :: dictKeys d := rfl

theorem dictInsert_cons_self {α : Type} (k : String) (v v' : α) (rest : Dict α) :
    dictInsert ((k, v') :: rest) k v = (k, v) :: rest := by
  simp [dictInsert]

theorem dictInsert_cons_ne {α : Type} (k k' : String) (v v' : α) (rest : Dict α)
    (h : k' ≠ k) : dictInsert ((k', v') :: rest) k v = (k', v') :: dictInsert rest k v := by
  simp [dictInsert, h]

theorem dictGet?_insert_self {α : Type} (d : Dict α) (k : String) (v : α) :
    dictGet? (dictInsert d k v) k = some v := by
  induction d with
  | nil => simp [dictInsert, dictGet?]
  | cons kv rest ih =>
    obtain ⟨k', v'⟩ := kv
    by_cases h : k' = k
    · simp [dictInsert, h, dictGet?]
    · simp [dictInsert, h, dictGet?, ih]

theorem dictGet?_insert_ne {α : Type} (d : Dict α) (k : String) (v : α) (c : String)
    (h : k ≠ c) : dictGet? (dictInsert d k v) c = dictGet? d c := by
  induction d with
  | nil => simp [dictInsert, dictGet?, h]
  | cons kv rest ih =>
    obtain ⟨k', v'⟩ := kv
    by_cases h2 : k' = k
    · subst h2; simp [dictInsert, dictGet?, h]
    · by_cases h3 : k' = c
      · subst h3
        simp [dictInsert, dictGet?, h2]
      · simp [dictInsert, h2, dictGet?, h3, ih]

theorem dictGet?_eq_none_iff {α : Type} (d : Dict α) (k : String) :
    dictGet? d k = none ↔ k ∉ dictKeys d := by
  induction d with
  | nil => simp [dictGet?, dictKeys]
  | cons kv rest ih =>
    obtain ⟨k', v'⟩ := kv
    by_cases h : k' = k
    · subst h
      simp [dictGet?]
    · simp only [dictGet?, if_neg h, dictKeys_cons, List.mem_cons, ih]
      constructor
      · intro hk hor
        rcases hor with heq | hmem
        · exact h heq.symm
        · exact hk hmem
      · intro hk hmem
        exact hk (Or.inr hmem)

theorem dictGet?_mem {α : Type} (d : Dict α) (k : String) (v : α)
    (h : dictGet? d k = some v) : (k, v) ∈ d := by
  induction d with
  | nil => simp [dictGet?] at h
  | cons kv rest ih =>
    obtain ⟨k', v'⟩ := kv
    by_cases h2 : k' = k
    · subst h2
      simp [dictGet?] at h
      simp [h]
    · simp [dictGet?, h2] at h
      exact List.mem_cons_of_mem _ (ih h)

theorem mem_dictKeys_insert {α : Type} (d : Dict α) (k : String) (v : α) (c : String) :
    c ∈ dictKeys (dictInsert d k v) ↔ c ∈ dictKeys d ∨ c = k := by
  induction d with
  | nil => simp [dictInsert]
  | cons kv rest ih =>
    obtain ⟨k', v'⟩ := kv
    by_cases h : k' = k
    · subst h
      rw [dictInsert_cons_self]
      simp only [dictKeys_cons, List.mem_cons]
      tauto
    · rw [dictInsert_cons_ne _ _ _ _ _ h]
      simp only [dictKeys_cons, List.mem_cons, ih]
      tauto

theorem dictKeys_insert_nodup {α : Type} (d : Dict α) (k : String) (v : α)
    (h : (dictKeys d).Nodup) : (dictKeys (dictInsert d k v)).Nodup := by
  induction d with
  | nil => simp [dictInsert]
  | cons kv rest ih =>
    obtain ⟨k', v'⟩ := kv
    simp only [dictKeys_cons, List.nodup_cons] at h
    by_cases h2 : k' = k
    · subst h2
      rw [dictInsert_cons_self]
      simp only [dictKeys_cons, List.nodup_cons]
      exact h
    · rw [dictInsert_cons_ne _ _ _ _ _ h2]
      simp only [dictKeys_cons, List.nodup_cons]
      refine ⟨fun hk => ?_, ih h.2⟩
      rw [mem_dictKeys_insert] at hk
      rcases hk with hk | hk
      · exact h.1 hk
      · exact h2 hk

theorem dictUpdate_cons {α : Type} (d : Dict α) (k : String) (v : α) (rest : Dict α) :
    dictUpdate d ((k, v) :: rest) = dictUpdate (dictInsert d k v) rest := by
  simp [dictUpdate]

theorem dictGet?_update_of_ne_keys {α : Type} (upd d : Dict α) (c : String)
    (h : ∀ kv ∈ upd, kv.1 ≠ c) : dictGet? (dictUpdate d upd) c = dictGet? d c := by
  induction upd generalizing d with
  | nil => simp [dictUpdate]
  | cons kv rest ih =>
    obtain ⟨k, v⟩ := kv
    rw [dictUpdate_cons, ih _ (fun x hx => h x (List.mem_cons_of_mem _ hx)),
      dictGet?_insert_ne _ _ _ _ (h (k, v) (List.mem_cons_self _ _))]

theorem dictGet?_update_of_mem {α : Type} (upd d : Dict α) (c : String) (v : α)
    (hnd : (dictKeys upd).Nodup) (h : dictGet? upd c = some v) :
    dictGet? (dictUpdate d upd) c = some v := by
  induction upd generalizing d with
  | nil => simp [dictGet?] at h
  | cons kv rest ih =>
    obtain ⟨k, v'⟩ := kv
    simp only [dictKeys_cons, List.nodup_cons] at hnd
    by_cases h2 : k = c
    · subst h2
      simp [dictGet?] at h
      subst h
      rw [dictUpdate_cons]
      rw [dictGet?_update_of_ne_keys]
      · exact dictGet?_insert_self _ _ _
      · intro x hx hxc
        exact hnd.1 (hxc ▸ List.mem_map_of_mem Prod.fst hx)
    · simp [dictGet?, h2] at h
      rw [dictUpdate_cons]
      exact ih _ hnd.2 h

theorem mem_dictKeys_update {α : Type} (upd d : Dict α) (c : String)
    (h : c ∈ dictKeys (dictUpdate d upd)) : c ∈ dictKeys d ∨ c ∈ dictKeys upd := by
  induction upd generalizing d with
  | nil => exact Or.inl (by simpa [dictUpdate] using h)
  | cons kv rest ih =>
    obtain ⟨k, v⟩ := kv
    rw [dictUpdate_cons] at h
    rcases ih _ h with h2 | h2
    · rw [mem_dictKeys_insert] at h2
      rcases h2 with h2 | h2
      · exact Or.inl h2
      · exact Or.inr (by simp [h2])
    · exact Or.inr (by simp only [dictKeys_cons]; exact List.mem_cons_of_mem _ h2)

/-! ### Lemmas on the per-source column folds -/

theorem evKey_inj {a b : String} (h : "eventdata_source_" ++ a = "eventdata_source_" ++ b) :
    a = b := by
  have h2 := congrArg String.data h
  simp only [String.data_append] at h2
  exact String.ext (List.append_cancel_left h2)

theorem foldl_insertKey_get_of_ne {α : Type} (f : String → α) (l : List String)
    (c : String) (h : ∀ x ∈ l, "eventdata_source_" ++ x ≠ c) : ∀ d : Dict α,
    dictGet? (l.foldl (fun acc x => dictInsert acc ("eventdata_source_" ++ x) (f x)) d) c =
      dictGet? d c := by
  induction l with
  | nil => intro d; rfl
  | cons a rest ih =>
    intro d
    rw [List.foldl_cons, ih (fun x hx => h x (List.mem_cons_of_mem _ hx)),
      dictGet?_insert_ne _ _ _ _ (h a (List.mem_cons_self _ _))]

theorem foldl_insertKey_get {α : Type} (f : String → α) (l : List String) (s : String)
    (hs : s ∈ l) : ∀ d : Dict α,
    dictGet? (l.foldl (fun acc x => dictInsert acc ("eventdata_source_" ++ x) (f x)) d)
      ("eventdata_source_" ++ s) = some (f s) := by
  induction l with
  | nil => cases hs
  | cons a rest ih =>
    intro d
    rw [List.foldl_cons]
    by_cases h : s ∈ rest
    · exact ih h _
    · have hsa : s = a := by
        rcases List.mem_cons.mp hs with h1 | h1
        · exact h1
        · exact absurd h1 h
      subst hsa
      rw [foldl_insertKey_get_of_ne]
      · exact dictGet?_insert_self _ _ _
      · intro x hx hc
        exact h (evKey_inj hc ▸ hx)

theorem setZeros_get (d : Dict Value) (fontes : List String) (s : String) (hs : s ∈ fontes) :
    dictGet? (setZeros d fontes) ("eventdata_source_" ++ s) = some (Value.vint 0) :=
  foldl_insertKey_get (fun _ => Value.vint 0) fontes s hs d

theorem setZeros_get_of_ne (d : Dict Value) (fontes : List String) (c : String)
    (h : ∀ x ∈ fontes, "eventdata_source_" ++ x ≠ c) :
    dictGet? (setZeros d fontes) c = dictGet? d c :=
  foldl_insertKey_get_of_ne (fun _ => Value.vint 0) fontes c h d

theorem edFixedOut_get (fontes : List String) (tally : Dict Int) (s : String)
    (hs : s ∈ fontes) :
    dictGet? (edFixedOut fontes tally) ("eventdata_source_" ++ s) =
      some (Value.vint (pyGetInt tally s 0)) :=
  foldl_insertKey_get (fun x => Value.vint (pyGetInt tally x 0)) fontes s hs []

theorem edExtraOut_cons (out : Dict Value) (kv : String × Int) (rest : Dict Int) :
    edExtraOut out (kv :: rest) =
      edExtraOut (if (dictGet? out ("eventdata_source_" ++ kv.1)).isSome then out
        else dictInsert out ("eventdata_source_" ++ kv.1) (Value.vint kv.2)) rest := rfl

theorem edExtraOut_preserve (tally : Dict Int) : ∀ (out : Dict Value) (c : String) (v : Value),
    dictGet? out c = some v → dictGet? (edExtraOut out tally) c = some v := by
  induction tally with
  | nil => intro out c v h; exact h
  | cons kv rest ih =>
    intro out c v h
    rw [edExtraOut_cons]
    apply ih
    by_cases hc : ("eventdata_source_" ++ kv.1) = c
    · subst hc
      simp [h]
    · split
      · exact h
      · rw [dictGet?_insert_ne _ _ _ _ hc]; exact h

theorem mem_dictKeys_foldl_insertKey {α : Type} (f : String → α) (l : List String)
    (c : String) : ∀ d : Dict α,
    c ∈ dictKeys (l.foldl (fun acc x => dictInsert acc ("eventdata_source_" ++ x) (f x)) d) →
    c ∈ dictKeys d ∨ ∃ x, c = "eventdata_source_" ++ x := by
  induction l with
  | nil => intro d h; exact Or.inl h
  | cons a rest ih =>
    intro d h
    rw [List.foldl_cons] at h
    rcases ih _ h with h2 | h2
    · rw [mem_dictKeys_insert] at h2
      rcases h2 with h2 | h2
      · exact Or.inl h2
      · exact Or.inr ⟨a, h2⟩
    · exact Or.inr h2

theorem mem_dictKeys_edExtraOut (tally : Dict Int) : ∀ (out : Dict Value) (c : String),
    c ∈ dictKeys (edExtraOut out tally) →
    c ∈ dictKeys out ∨ ∃ x, c = "eventdata_source_" ++ x := by
  induction tally with
  | nil => intro out c h; exact Or.inl h
  | cons kv rest ih =>
    intro out c h
    rw [edExtraOut_cons] at h
    rcases ih _ _ h with h2 | h2
    · revert h2
      split
      · exact fun h2 => Or.inl h2
      · intro h2
        rw [mem_dictKeys_insert] at h2
        rcases h2 with h2 | h2
        · exact Or.inl h2
        · exact Or.inr ⟨kv.1, h2⟩
    · exact Or.inr h2

theorem dictKeys_foldl_insertKey_nodup {α : Type} (f : String → α) (l : List String) :
    ∀ d : Dict α, (dictKeys d).Nodup →
    (dictKeys (l.foldl (fun acc x => dictInsert acc ("eventdata_source_" ++ x) (f x)) d)).Nodup := by
  induction l with
  | nil => intro d h; exact h
  | cons a rest ih =>
    intro d h
    rw [List.foldl_cons]
    exact ih _ (dictKeys_insert_nodup _ _ _ h)

theorem dictKeys_edExtraOut_nodup (tally : Dict Int) : ∀ out : Dict Value,
    (dictKeys out).Nodup → (dictKeys (edExtraOut out tally)).Nodup := by
  induction tally with
  | nil => intro out h; exact h
  | cons kv rest ih =>
    intro out h
    rw [edExtraOut_cons]
    apply ih
    split
    · exact h
    · exact dictKeys_insert_nodup _ _ _ h

/-! ### Non-negativity of the mention tallies -/

theorem pyGetInt_nonneg (d : Dict Int) (k : String) (h : ∀ kv ∈ d, 0 ≤ kv.2) :
    0 ≤ pyGetInt d k 0 := by
  unfold pyGetInt
  cases hg : dictGet? d k with
  | none => simp
  | some v => simpa using h _ (dictGet?_mem _ _ _ hg)

theorem allNonneg_insert (d : Dict Int) (k : String) (v : Int) (hv : 0 ≤ v)
    (h : ∀ kv ∈ d, 0 ≤ kv.2) : ∀ kv ∈ dictInsert d k v, 0 ≤ kv.2 := by
  induction d with
  | nil =>
    intro kv hkv
    simp [dictInsert] at hkv
    rw [hkv]
    exact hv
  | cons kv' rest ih =>
    intro kv hkv
    obtain ⟨k', v'⟩ := kv'
    by_cases h2 : k' = k
    · subst h2
      rw [dictInsert_cons_self] at hkv
      rcases List.mem_cons.mp hkv with h3 | h3
      · rw [h3]; exact hv
      · exact h _ (List.mem_cons_of_mem _ h3)
    · rw [dictInsert_cons_ne _ _ _ _ _ h2] at hkv
      rcases List.mem_cons.mp hkv with h3 | h3
      · rw [h3]; exact h _ (List.mem_cons_self _ _)
      · exact ih (fun x hx => h x (List.mem_cons_of_mem _ hx)) _ h3

theorem tallyEvents_nonneg (evs : List Event) : ∀ acc : Dict Int,
    (∀ kv ∈ acc, 0 ≤ kv.2) → ∀ kv ∈ tallyEvents acc evs, 0 ≤ kv.2 := by
  induction evs with
  | nil => intro acc h; exact h
  | cons ev rest ih =>
    intro acc h
    have he : tallyEvents acc (ev :: rest) =
        tallyEvents (dictInsert acc (srcOf ev) (pyGetInt acc (srcOf ev) 0 + 1)) rest := rfl
    rw [he]
    apply ih
    apply allNonneg_insert
    · have := pyGetInt_nonneg acc (srcOf ev) h
      omega
    · exact h

theorem edGo_nonneg (feed : EdRequest → Except Unit EventPage) (doi email : String)
    (rows : Nat) : ∀ (remaining : Nat) (cursor : Option String) (acc tally : Dict Int),
    (∀ kv ∈ acc, 0 ≤ kv.2) →
    (edGo feed doi email rows remaining cursor acc).1 = Except.ok tally →
    ∀ kv ∈ tally, 0 ≤ kv.2 := by
  intro remaining
  induction remaining with
  | zero =>
    intro cursor acc tally h hok
    simp [edGo] at hok
    rw [← hok]
    exact h
  | succ k ih =>
    intro cursor acc tally h hok
    simp only [edGo] at hok
    split at hok
    · simp at hok
    · rename_i pg heq
      split at hok
      · simp at hok
        rw [← hok]
        exact h
      · split at hok
        · simp at hok
          rw [← hok]
          exact tallyEvents_nonneg _ _ h
        · simp at hok
          exact ih _ _ _ (tallyEvents_nonneg _ _ h) hok

theorem edGo_count_le (feed : EdRequest → Except Unit EventPage) (doi email : String)
    (rows : Nat) : ∀ (remaining : Nat) (cursor : Option String) (acc : Dict Int),
    (edGo feed doi email rows remaining cursor acc).2 ≤ remaining := by
  intro remaining
  induction remaining with
  | zero => intro cursor acc; simp [edGo]
  | succ k ih =>
    intro cursor acc
    simp only [edGo]
    split
    · simp
    · split
      · simp
      · split
        · simp
        · simpa using Nat.succ_le_succ (ih _ _)

/-- C1: for every DOI, contact email, page size and `max_pages ≥ 1`, mention
aggregation issues at most `max_pages` page requests and (being a total
function) terminates, whatever event pages and cursors the upstream serves —
in particular when every response carries a fresh, changing next cursor. -/
theorem eventdata_requests_bounded (feed : EdRequest → Except Unit EventPage)
    (doi email : String) (fontes_fixas : List String) (rows maxPages : Nat)
    (_hmp : 1 ≤ maxPages) :
    (eventdata_por_doi feed doi email fontes_fixas rows maxPages).2 ≤ maxPages := by
  have h := edGo_count_le feed doi email rows maxPages none []
  simp only [eventdata_por_doi]
  split <;> simpa using h

/-- Witness for C1: a concrete upstream that always returns one event and a
fresh, changing cursor is cut off after `max_pages = 3` requests. -/
theorem eventdata_requests_bounded_witness :
    1 ≤ 3 ∧ (eventdata_por_doi
      (fun r => Except.ok ⟨[⟨some "t"⟩], some (r.cursor.getD "" ++ "c")⟩)
      "10.1/x" "a@b" ["t"] 100 3).2 ≤ 3 :=
  ⟨by decide, eventdata_requests_bounded _ _ _ _ _ _ (by decide)⟩

/-- C8 counterexample: an event whose source label is whitespace-only (hence
blank) is tallied under the empty-string key, not under "unknown". -/
theorem srcOf_blank_counterexample :
    srcOf ⟨some " "⟩ = "" ∧ srcOf ⟨some " "⟩ ≠ "unknown" := by decide

/-- C8 amended: the tally key of an event is its source label trimmed of
surrounding whitespace; it is "unknown" when the label is absent or the
empty string, while a whitespace-only label yields the empty-string key;
every key of the tally is the `srcOf` of some tallied event. -/
theorem tally_key_spec :
    (∀ ev : Event, ev.source = none ∨ ev.source = some "" → srcOf ev = "unknown") ∧
    (∀ (ev : Event) (s : String), ev.source = some s → s ≠ "" → srcOf ev = pyStrip s) ∧
    (∀ (acc : Dict Int) (evs : List Event) (k : String), k ∈ dictKeys (tallyEvents acc evs) →
      k ∈ dictKeys acc ∨ ∃ ev ∈ evs, k = srcOf ev) := by
  refine ⟨?_, ?_, ?_⟩
  · rintro ev (h | h) <;> simp only [srcOf, h] <;> decide
  · intro ev s hs hne
    simp only [srcOf, hs]
    simp [pyOrS, hne]
  · intro acc evs
    induction evs generalizing acc with
    | nil => intro k h; exact Or.inl h
    | cons ev rest ih =>
      intro k h
      have he : tallyEvents acc (ev :: rest) =
          tallyEvents (dictInsert acc (srcOf ev) (pyGetInt acc (srcOf ev) 0 + 1)) rest := rfl
      rw [he] at h
      rcases ih _ _ h with h2 | h2
      · rw [mem_dictKeys_insert] at h2
        rcases h2 with h2 | h2
        · exact Or.inl h2
        · exact Or.inr ⟨ev, List.mem_cons_self _ _, h2⟩
      · obtain ⟨e2, he2, hk⟩ := h2
        exact Or.inr ⟨e2, List.mem_cons_of_mem _ he2, hk⟩

/-- Witness for the amended C8 at concrete events. -/
theorem tally_key_spec_witness :
    srcOf ⟨none⟩ = "unknown" ∧ srcOf ⟨some " x "⟩ = pyStrip " x " ∧
    ("x" ∈ dictKeys ([] : Dict Int) ∨ ∃ ev ∈ [(⟨some "x"⟩ : Event)], "x" = srcOf ev) :=
  ⟨tally_key_spec.1 ⟨none⟩ (Or.inl rfl),
   tally_key_spec.2.1 ⟨some " x "⟩ " x " rfl (by decide),
   tally_key_spec.2.2 [] [⟨some "x"⟩] "x" (by decide)⟩

/-! ### The identifier normalizer -/

@[simp] theorem mkData (l : List Char) : (String.mk l).data = l := rfl

theorem digit_not_pyIsSpace (c : Char) (h : c.isDigit = true) : pyIsSpace c = false := by
  cases hp : pyIsSpace c
  · rfl
  · exfalso
    unfold pyIsSpace at hp
    simp only [Bool.or_eq_true, decide_eq_true_eq] at hp
    rcases hp with ((((h1 | h1) | h1) | h1) | h1) | h1 <;> subst h1 <;>
      exact absurd h (by decide)

theorem digit_ne_space (c : Char) (h : c.isDigit = true) : c ≠ ' ' := by
  intro h2
  subst h2
  exact absurd h (by decide)

theorem digit_ne_hyphen (c : Char) (h : c.isDigit = true) : c ≠ '-' := by
  intro h2
  subst h2
  exact absurd h (by decide)

theorem dropWhile_of_all_false {p : Char → Bool} (l : List Char)
    (h : ∀ c ∈ l, p c = false) : l.dropWhile p = l := by
  cases l with
  | nil => rfl
  | cons a as =>
    rw [List.dropWhile_cons_of_neg]
    simp [h a (List.mem_cons_self _ _)]

theorem pyStripL_eq_self (l : List Char) (h : ∀ c ∈ l, pyIsSpace c = false) :
    pyStripL l = l := by
  unfold pyStripL
  rw [dropWhile_of_all_false l h,
    dropWhile_of_all_false l.reverse (fun c hc => h c (List.mem_reverse.mp hc)),
    List.reverse_reverse]

/-- C4 counterexample: the input `"00000002-18250097"` equals its own trim
and is not in canonical separated form (it is malformed), yet normalization
reformats it instead of returning it unchanged. -/
theorem normalizar_not_identity_counterexample :
    normalizar_orcid "00000002-18250097" = "0000-0002-1825-0097" ∧
    pyStrip "00000002-18250097" = "00000002-18250097" ∧
    normalizar_orcid "00000002-18250097" ≠ pyStrip "00000002-18250097" := by decide

/-- C4 amended: normalization strips surrounding whitespace and removes
every space character; when the remaining content has exactly 16 characters
after removing hyphens — in particular for every trimmed input of exactly
16 digits and no separators — the result is that content as four
hyphen-joined groups of four characters; otherwise the space-removed
trimmed input is returned unchanged, no error being raised; canonical
four-group digit inputs are returned unchanged. -/
theorem normalizar_orcid_spec :
    (∀ t : String, (∀ c ∈ pyStripL t.data, c.isDigit = true) →
      (pyStripL t.data).length = 16 →
      ∃ g1 g2 g3 g4 : List Char, g1.length = 4 ∧ g2.length = 4 ∧ g3.length = 4 ∧
        g4.length = 4 ∧ g1 ++ (g2 ++ (g3 ++ g4)) = pyStripL t.data ∧
        (normalizar_orcid t).data = g1 ++ '-' :: (g2 ++ '-' :: (g3 ++ '-' :: g4))) ∧
    (∀ t : String,
      (((pyStripL t.data).filter (fun c => c ≠ ' ')).filter (fun c => c ≠ '-')).length ≠ 16 →
      normalizar_orcid t = ⟨(pyStripL t.data).filter (fun c => c ≠ ' ')⟩) ∧
    (∀ g1 g2 g3 g4 : List Char, g1.length = 4 → g2.length = 4 → g3.length = 4 →
      g4.length = 4 → (∀ c ∈ g1 ++ (g2 ++ (g3 ++ g4)), c.isDigit = true) →
      normalizar_orcid ⟨g1 ++ '-' :: (g2 ++ '-' :: (g3 ++ '-' :: g4))⟩ =
        ⟨g1 ++ '-' :: (g2 ++ '-' :: (g3 ++ '-' :: g4))⟩) := by
  refine ⟨?_, ?_, ?_⟩
  · intro t hdig hlen
    have hf1 : (pyStripL t.data).filter (fun c => decide (c ≠ ' ')) = pyStripL t.data :=
      List.filter_eq_self.mpr (fun a ha => by simpa using digit_ne_space a (hdig a ha))
    have hf2 : (pyStripL t.data).filter (fun c => decide (c ≠ '-')) = pyStripL t.data :=
      List.filter_eq_self.mpr (fun a ha => by simpa using digit_ne_hyphen a (hdig a ha))
    have hbranch : normalizar_orcid t =
        ⟨(pyStripL t.data).take 4 ++ '-' :: (((pyStripL t.data).drop 4).take 4 ++
          '-' :: (((pyStripL t.data).drop 8).take 4 ++
            '-' :: ((pyStripL t.data).drop 12).take 4))⟩ := by
      simp only [normalizar_orcid, hf1, hf2, hlen, if_pos]
    refine ⟨(pyStripL t.data).take 4, ((pyStripL t.data).drop 4).take 4,
      ((pyStripL t.data).drop 8).take 4, ((pyStripL t.data).drop 12).take 4,
      ?_, ?_, ?_, ?_, ?_, ?_⟩
    · simp [List.length_take, hlen]
    · simp [List.length_take, List.length_drop, hlen]
    · simp [List.length_take, List.length_drop, hlen]
    · simp [List.length_take, List.length_drop, hlen]
    · have e4 : ((pyStripL t.data).drop 12).take 4 = (pyStripL t.data).drop 12 :=
        List.take_of_length_le (by simp [List.length_drop, hlen])
      have d12a : (pyStripL t.data).drop 12 = ((pyStripL t.data).drop 8).drop 4 := by
        simp [List.drop_drop]
      have d8a : (pyStripL t.data).drop 8 = ((pyStripL t.data).drop 4).drop 4 := by
        simp [List.drop_drop]
      rw [e4, d12a, List.take_append_drop, d8a, List.take_append_drop,
        List.take_append_drop]
    · rw [hbranch]
  · intro t hne
    simp only [normalizar_orcid]
    rw [if_neg hne]
  · intro g1 g2 g3 g4 h1 h2 h3 h4 hdig
    have hmem : ∀ c ∈ g1 ++ '-' :: (g2 ++ '-' :: (g3 ++ '-' :: g4)),
        pyIsSpace c = false ∧ c ≠ ' ' ∧ (c.isDigit = true ∨ c = '-') := by
      intro c hc
      simp only [List.mem_append, List.mem_cons] at hc
      have hcase : c.isDigit = true ∨ c = '-' := by
        rcases hc with hc | hc | hc | hc | hc | hc | hc
        · exact Or.inl (hdig c (List.mem_append_left _ hc))
        · exact Or.inr hc
        · exact Or.inl (hdig c (List.mem_append_right _ (List.mem_append_left _ hc)))
        · exact Or.inr hc
        · exact Or.inl (hdig c
            (List.mem_append_right _ (List.mem_append_right _ (List.mem_append_left _ hc))))
        · exact Or.inr hc
        · exact Or.inl (hdig c
            (List.mem_append_right _ (List.mem_append_right _ (List.mem_append_right _ hc))))
      rcases hcase with hd | hh
      · exact ⟨digit_not_pyIsSpace c hd, digit_ne_space c hd, Or.inl hd⟩
      · subst hh
        exact ⟨by decide, by decide, Or.inr rfl⟩
    have hstrip : pyStripL (g1 ++ '-' :: (g2 ++ '-' :: (g3 ++ '-' :: g4))) =
        g1 ++ '-' :: (g2 ++ '-' :: (g3 ++ '-' :: g4)) :=
      pyStripL_eq_self _ (fun c hc => (hmem c hc).1)
    have hf1 : (g1 ++ '-' :: (g2 ++ '-' :: (g3 ++ '-' :: g4))).filter
        (fun c => decide (c ≠ ' ')) = g1 ++ '-' :: (g2 ++ '-' :: (g3 ++ '-' :: g4)) :=
      List.filter_eq_self.mpr (fun a ha => by simpa using (hmem a ha).2.1)
    have hfg : ∀ g : List Char, (∀ c ∈ g, c.isDigit = true) →
        g.filter (fun c => decide (c ≠ '-')) = g := by
      intro g hg
      exact List.filter_eq_self.mpr (fun a ha => by simpa using digit_ne_hyphen a (hg a ha))
    have hraw : (g1 ++ '-' :: (g2 ++ '-' :: (g3 ++ '-' :: g4))).filter
        (fun c => decide (c ≠ '-')) = g1 ++ (g2 ++ (g3 ++ g4)) := by
      rw [List.filter_append, List.filter_cons_of_neg (by decide), List.filter_append,
        List.filter_cons_of_neg (by decide), List.filter_append,
        List.filter_cons_of_neg (by decide),
        hfg g1 (fun c hc => hdig c (List.mem_append_left _ hc)),
        hfg g2 (fun c hc => hdig c (List.mem_append_right _ (List.mem_append_left _ hc))),
        hfg g3 (fun c hc => hdig c (List.mem_append_right _ (List.mem_append_right _
          (List.mem_append_left _ hc)))),
        hfg g4 (fun c hc => hdig c (List.mem_append_right _ (List.mem_append_right _
          (List.mem_append_right _ hc))))]
    have hlen2 : (g1 ++ (g2 ++ (g3 ++ g4))).length = 16 := by
      simp [h1, h2, h3, h4]
    have hdrop8 : (g1 ++ (g2 ++ (g3 ++ g4))).drop 8 = g3 ++ g4 := by
      have e : ((g1 ++ (g2 ++ (g3 ++ g4))).drop 4).drop 4 =
          (g1 ++ (g2 ++ (g3 ++ g4))).drop 8 := by
        rw [List.drop_drop]
      rw [← e, List.drop_left' h1, List.drop_left' h2]
    have hdrop12 : (g1 ++ (g2 ++ (g3 ++ g4))).drop 12 = g4 := by
      have e : ((g1 ++ (g2 ++ (g3 ++ g4))).drop 8).drop 4 =
          (g1 ++ (g2 ++ (g3 ++ g4))).drop 12 := by
        rw [List.drop_drop]
      rw [← e, hdrop8, List.drop_left' h3]
    simp only [normalizar_orcid, mkData, hstrip, hf1, hraw, hlen2, if_pos]
    rw [List.take_left' h1, List.drop_left' h1, List.take_left' h2, hdrop8,
      List.take_left' h3, hdrop12, List.take_of_length_le (le_of_eq h4)]

/-- Witness for the amended C4: one input per branch (16 digits without
separators, a malformed input with an internal space, and a canonical
already-separated identifier). -/
theorem normalizar_orcid_spec_witness :
    (∃ g1 g2 g3 g4 : List Char, g1.length = 4 ∧ g2.length = 4 ∧ g3.length = 4 ∧
      g4.length = 4 ∧ g1 ++ (g2 ++ (g3 ++ g4)) = pyStripL "0000000218250097".data ∧
      (normalizar_orcid "0000000218250097").data =
        g1 ++ '-' :: (g2 ++ '-' :: (g3 ++ '-' :: g4))) ∧
    normalizar_orcid "a b" = ⟨(pyStripL "a b".data).filter (fun c => c ≠ ' ')⟩ ∧
    normalizar_orcid ⟨['0', '0', '0', '0'] ++ '-' :: (['0', '0', '0', '2'] ++
        '-' :: (['1', '8', '2', '5'] ++ '-' :: ['0', '0', '9', '7']))⟩ =
      ⟨['0', '0', '0', '0'] ++ '-' :: (['0', '0', '0', '2'] ++
        '-' :: (['1', '8', '2', '5'] ++ '-' :: ['0', '0', '9', '7']))⟩ :=
  ⟨normalizar_orcid_spec.1 "0000000218250097" (by decide) (by decide),
   normalizar_orcid_spec.2.1 "a b" (by decide),
   normalizar_orcid_spec.2.2 _ _ _ _ (by decide) (by decide) (by decide) (by decide)
     (by decide)⟩

/-! ### Failure of the works listing (C7) -/

/-- C7: when the works-listing call fails for an identifier, the pipeline
emits zero rows for that identifier, records the failure in the log, and
continues with the remaining identifiers exactly as it otherwise would. -/
theorem coletar_skips_failed_identifier (up : Upstream) (email : String)
    (fontes : List String) (rows maxPages total idx : Nat) (o : String)
    (rest : List String) (e : String)
    (hfail : up.listWorks (normalizar_orcid o) = Except.error e) :
    coletarGo up email fontes rows maxPages total idx (o :: rest) =
      ((coletarGo up email fontes rows maxPages total (idx + 1) rest).1,
        LogEntry.orcidHeader idx total (normalizar_orcid o) ::
          LogEntry.listError (normalizar_orcid o) e ::
          (coletarGo up email fontes rows maxPages total (idx + 1) rest).2) := by
  simp only [coletarGo, hfail]

/-- Witness for C7: one failing identifier, empty remainder. -/
theorem coletar_skips_failed_identifier_witness :
    coletarGo ⟨fun _ => Except.error "HTTP 500", fun _ _ => Except.ok ⟨[]⟩,
        fun _ _ => Except.error (), fun _ => Except.error ()⟩ "" [] 10 5 1 1 ["x"] =
      ([], [LogEntry.orcidHeader 1 1 (normalizar_orcid "x"),
            LogEntry.listError (normalizar_orcid "x") "HTTP 500"]) := by
  have h := coletar_skips_failed_identifier ⟨fun _ => Except.error "HTTP 500",
    fun _ _ => Except.ok ⟨[]⟩, fun _ _ => Except.error (), fun _ => Except.error ()⟩
    "" [] 10 5 1 1 "x" [] "HTTP 500" rfl
  rw [h]
  rfl

/-! ### DOI resolution from a work detail (C6, C10) -/

theorem matchDoiHere_shape (cs m : List Char) (h : matchDoiHere cs = some m) :
    ∃ tail, m = '1' :: '0' :: '.' :: tail := by
  unfold matchDoiHere at h
  repeat split at h
  all_goals first
    | (injection h with h; exact ⟨_, h.symm⟩)
    | simp at h

theorem searchDoi_shape (cs m : List Char) (h : searchDoi cs = some m) :
    ∃ tail, m = '1' :: '0' :: '.' :: tail := by
  induction cs with
  | nil => simp [searchDoi] at h
  | cons c cs ih =>
    simp only [searchDoi] at h
    cases hm : matchDoiHere (c :: cs) with
    | some m2 =>
      rw [hm] at h
      injection h with h
      exact h ▸ matchDoiHere_shape _ _ hm
    | none =>
      rw [hm] at h
      exact ih h

theorem rstripPunct_ne_nil (m : List Char) (tail : List Char) (hm : m = '1' :: tail) :
    rstripPunct m ≠ [] := by
  intro h
  unfold rstripPunct at h
  rw [List.reverse_eq_nil_iff, List.dropWhile_eq_nil_iff] at h
  have h1 : doiPunct '1' = true := h '1' (by rw [hm]; simp)
  exact absurd h1 (by decide)

theorem extrair_ne_some_empty (x : Option String) : extrair_doi_de_texto x ≠ some "" := by
  intro h
  cases x with
  | none => simp [extrair_doi_de_texto] at h
  | some t =>
    simp only [extrair_doi_de_texto] at h
    by_cases ht : t = ""
    · simp [ht] at h
    · rw [if_neg ht] at h
      cases hs : searchDoi (pyStripL t.data) with
      | none => rw [hs] at h; exact absurd h (by simp)
      | some m =>
        rw [hs] at h
        injection h with h
        obtain ⟨tail, hm⟩ := searchDoi_shape _ _ hs
        exact rstripPunct_ne_nil m ('0' :: '.' :: tail) hm (congrArg String.data h)

theorem doiLoop1_none_of_find?_none (l : List ExtId) (h : l.find? isDoiTyped = none) :
    doiLoop1 l = none := by
  induction l with
  | nil => rfl
  | cons a rest ih =>
    rw [List.find?_cons] at h
    cases ha : isDoiTyped a with
    | true => rw [ha] at h; simp at h
    | false =>
      rw [ha] at h
      simp only [doiLoop1, ha]
      exact ih h

theorem doiLoop1_some_of_find?_some (l : List ExtId) (e : ExtId)
    (h : l.find? isDoiTyped = some e) :
    doiLoop1 l = some
      (if pyTruthy (extrair_doi_de_texto (some (pyStrip (pyOrS e.idValue "")))) then
        extrair_doi_de_texto (some (pyStrip (pyOrS e.idValue "")))
      else if pyStrip (pyOrS e.idValue "") = "" then none
      else some (pyStrip (pyOrS e.idValue ""))) := by
  induction l with
  | nil => simp [List.find?] at h
  | cons a rest ih =>
    rw [List.find?_cons] at h
    cases ha : isDoiTyped a with
    | true =>
      rw [ha] at h
      simp only at h
      injection h with h
      subst h
      simp only [doiLoop1, ha, if_pos]
    | false =>
      rw [ha] at h
      simp only at h
      simp only [doiLoop1, ha]
      exact ih h

theorem doiLoop2_eq_findSome? (l : List ExtId) :
    doiLoop2 l =
      l.findSome? (fun x => extrair_doi_de_texto (some (pyStrip (pyOrS x.idValue "")))) := by
  induction l with
  | nil => rfl
  | cons a rest ih =>
    rw [List.findSome?_cons]
    cases hx : extrair_doi_de_texto (some (pyStrip (pyOrS a.idValue ""))) with
    | none => simp [doiLoop2, hx, pyTruthy, ih]
    | some d =>
      have hd : d ≠ "" := fun hd => extrair_ne_some_empty _ (hd ▸ hx)
      simp only [doiLoop2, hx, pyTruthy]
      simp [hd]

/-- C6 counterexample: a work detail whose only external identifier is
typed "doi" with a blank value. The claim's fallback to the raw trimmed
value (here the empty string) predicts `some ""`; the function instead
returns `none`. -/
theorem doi_typed_blank_value_counterexample :
    pyStrip (pyOrS (some "   ") "") = "" ∧
    extrair_doi_de_texto (some "") = none ∧
    extrair_doi_do_work_orcid ⟨[⟨some "doi", some "   "⟩]⟩ = none ∧
    extrair_doi_do_work_orcid ⟨[⟨some "doi", some "   "⟩]⟩ ≠
      some (pyStrip (pyOrS (some "   ") "")) := by decide

/-- C6 amended: resolution first scans for an identifier explicitly typed
"doi" (case-insensitively); if one exists, the result is the extractor's
output on its trimmed value, falling back to that trimmed value itself when
extraction yields nothing and the value is non-empty, and to nothing when
it is empty; if no identifier is typed "doi", the result is the first
extractor hit over all identifiers' trimmed values; otherwise nothing is
returned — no error is raised (the function is total). -/
theorem extrair_doi_do_work_spec (wd : WorkDetail) :
    (∀ e, wd.ext_ids.find? isDoiTyped = some e →
      extrair_doi_do_work_orcid wd =
        (match extrair_doi_de_texto (some (pyStrip (pyOrS e.idValue ""))) with
         | some d => some d
         | none => if pyStrip (pyOrS e.idValue "") = "" then none
                   else some (pyStrip (pyOrS e.idValue "")))) ∧
    (wd.ext_ids.find? isDoiTyped = none →
      extrair_doi_do_work_orcid wd =
        wd.ext_ids.findSome?
          (fun x => extrair_doi_de_texto (some (pyStrip (pyOrS x.idValue ""))))) := by
  constructor
  · intro e he
    unfold extrair_doi_do_work_orcid
    rw [doiLoop1_some_of_find?_some _ _ he]
    cases hx : extrair_doi_de_texto (some (pyStrip (pyOrS e.idValue ""))) with
    | none => simp [hx, pyTruthy]
    | some d =>
      have hd : d ≠ "" := fun hd => extrair_ne_some_empty _ (hd ▸ hx)
      simp [hx, pyTruthy, hd]
  · intro he
    unfold extrair_doi_do_work_orcid
    rw [doiLoop1_none_of_find?_none _ he]
    exact doiLoop2_eq_findSome? _

/-- Witness for the amended C6: one concrete work detail per branch. -/
theorem extrair_doi_do_work_spec_witness :
    extrair_doi_do_work_orcid ⟨[⟨some "DOI", some "doi:10.9999"⟩]⟩ =
      (match extrair_doi_de_texto (some (pyStrip (pyOrS (some "doi:10.9999") ""))) with
       | some d => some d
       | none => if pyStrip (pyOrS (some "doi:10.9999") "") = "" then none
                 else some (pyStrip (pyOrS (some "doi:10.9999") ""))) ∧
    extrair_doi_do_work_orcid ⟨[⟨some "issn", some "x 10.1234/ab"⟩]⟩ =
      List.findSome? (fun x => extrair_doi_de_texto (some (pyStrip (pyOrS x.idValue ""))))
        [(⟨some "issn", some "x 10.1234/ab"⟩ : ExtId)] :=
  ⟨(extrair_doi_do_work_spec ⟨[⟨some "DOI", some "doi:10.9999"⟩]⟩).1
      ⟨some "DOI", some "doi:10.9999"⟩ (by decide),
   (extrair_doi_do_work_spec ⟨[⟨some "issn", some "x 10.1234/ab"⟩]⟩).2 (by decide)⟩

/-- C10: a typed-"doi" identifier whose value is absent or trims to the
empty string makes resolution return nothing immediately; the later
identifiers are never scanned, whatever extractable DOIs they carry. -/
theorem doi_typed_empty_value_stops (pre : List ExtId) (e : ExtId) (rest : List ExtId)
    (hpre : ∀ x ∈ pre, isDoiTyped x = false) (he : isDoiTyped e = true)
    (hv : pyStrip (pyOrS e.idValue "") = "") :
    extrair_doi_do_work_orcid ⟨pre ++ e :: rest⟩ = none := by
  have h1 : doiLoop1 (pre ++ e :: rest) = some none := by
    induction pre with
    | nil =>
      simp only [List.nil_append, doiLoop1, he, if_pos]
      rw [hv]
      decide
    | cons p ps ih =>
      have hp := hpre p (List.mem_cons_self _ _)
      simp only [List.cons_append, doiLoop1, hp]
      simp only [Bool.false_eq_true, if_false]
      exact ih (fun x hx => hpre x (List.mem_cons_of_mem _ hx))
  unfold extrair_doi_do_work_orcid
  rw [h1]

/-- Witness for C10: the blank typed-doi identifier sits between an
untyped identifier and one whose value holds an extractable DOI. -/
theorem doi_typed_empty_value_stops_witness :
    extrair_doi_do_work_orcid ⟨[⟨some "issn", some "1234-5678"⟩] ++
      (⟨some "doi", none⟩ : ExtId) ::
        [⟨some "url", some "https://doi.org/10.1234/good"⟩]⟩ = none :=
  doi_typed_empty_value_stops [⟨some "issn", some "1234-5678"⟩] ⟨some "doi", none⟩
    [⟨some "url", some "https://doi.org/10.1234/good"⟩] (by decide) (by decide) (by decide)

/-! ### Fixed mention-source columns in every row (C5) -/

theorem eventdata_out_keys_nodup (feed : EdRequest → Except Unit EventPage)
    (doi email : String) (fontes : List String) (rows maxPages : Nat) (out : Dict Value)
    (hok : (eventdata_por_doi feed doi email fontes rows maxPages).1 = Except.ok out) :
    (dictKeys out).Nodup := by
  simp only [eventdata_por_doi] at hok
  cases hgo : (edGo feed doi email rows maxPages none []).1 with
  | error e => rw [hgo] at hok; simp at hok
  | ok tally =>
    rw [hgo] at hok
    simp only [Except.ok.injEq] at hok
    rw [← hok]
    exact dictKeys_edExtraOut_nodup tally _
      (dictKeys_foldl_insertKey_nodup _ fontes [] (by simp))

theorem eventdata_out_fixed (feed : EdRequest → Except Unit EventPage)
    (doi email : String) (fontes : List String) (rows maxPages : Nat) (out : Dict Value)
    (s : String) (hs : s ∈ fontes)
    (hok : (eventdata_por_doi feed doi email fontes rows maxPages).1 = Except.ok out) :
    ∃ n : Int, dictGet? out ("eventdata_source_" ++ s) = some (Value.vint n) ∧ 0 ≤ n := by
  simp only [eventdata_por_doi] at hok
  cases hgo : (edGo feed doi email rows maxPages none []).1 with
  | error e => rw [hgo] at hok; simp at hok
  | ok tally =>
    rw [hgo] at hok
    simp only [Except.ok.injEq] at hok
    have hfix := edFixedOut_get fontes tally s hs
    have hpres := edExtraOut_preserve tally (edFixedOut fontes tally) _ _ hfix
    have hnn : ∀ kv ∈ tally, 0 ≤ kv.2 :=
      edGo_nonneg feed doi email rows maxPages none [] tally (by simp) hgo
    exact ⟨pyGetInt tally s 0, hok ▸ hpres, pyGetInt_nonneg _ _ hnn⟩

theorem buildRow_fixed_sources (up : Upstream) (email : String) (fontes : List String)
    (rows maxPages : Nat) (orcid : String) (w : Work) (s : String) (hs : s ∈ fontes) :
    ∃ n : Int, dictGet? (buildRow up email fontes rows maxPages orcid w)
      ("eventdata_source_" ++ s) = some (Value.vint n) ∧ 0 ≤ n := by
  simp only [buildRow]
  split
  · split
    · rename_i out hok
      obtain ⟨n, hget, hn⟩ := eventdata_out_fixed up.edFeed _ email fontes rows maxPages
        out s hs hok
      exact ⟨n, dictGet?_update_of_mem out _ _ _
        (eventdata_out_keys_nodup up.edFeed _ email fontes rows maxPages out hok) hget, hn⟩
    · exact ⟨0, setZeros_get _ fontes s hs, le_refl 0⟩
  · exact ⟨0, setZeros_get _ fontes s hs, le_refl 0⟩

/-- C5: every row the pipeline emits — DOI resolved with successful mention
fetch, resolved with failed mention fetch, or no DOI at all — carries every
configured fixed mention-source column with a non-negative integer value
(0 when that source never appeared in any event). -/
theorem pipeline_fixed_sources_nonneg (up : Upstream) (orcids : List String)
    (email : String) (fontes : List String) (rows maxPages : Nat) :
    ∀ linha ∈ (coletar_para_lista_orcids up orcids email fontes rows maxPages).1,
    ∀ s ∈ fontes, ∃ n : Int,
      dictGet? linha ("eventdata_source_" ++ s) = some (Value.vint n) ∧ 0 ≤ n := by
  suffices h : ∀ (l : List String) (idx : Nat) (linha : Dict Value),
      linha ∈ (coletarGo up email fontes rows maxPages orcids.length idx l).1 →
      ∀ s ∈ fontes, ∃ n : Int,
        dictGet? linha ("eventdata_source_" ++ s) = some (Value.vint n) ∧ 0 ≤ n by
    exact fun linha hl => h orcids 1 linha hl
  intro l
  induction l with
  | nil => intro idx linha hl; simp [coletarGo] at hl
  | cons o rest ih =>
    intro idx linha hl
    simp only [coletarGo] at hl
    cases hlw : up.listWorks (normalizar_orcid o) with
    | error e =>
      rw [hlw] at hl
      exact ih _ _ hl
    | ok works =>
      rw [hlw] at hl
      simp only [List.mem_append] at hl
      rcases hl with hl | hl
      · obtain ⟨w, _hw, hwr⟩ := List.mem_map.mp hl
        intro s hs
        exact hwr ▸ buildRow_fixed_sources up email fontes rows maxPages
          (normalizar_orcid o) w s hs
      · exact ih _ _ hl

/-- Witness for C5: the sole row of the no-DOI scenario run, at the fixed
source "unknown". -/
theorem pipeline_fixed_sources_nonneg_witness :
    ∃ n : Int, dictGet?
      ((coletar_para_lista_orcids scenarioUp ["0000-0002-1825-0097"] "a@b"
        DEFAULT_FONTES_FIXAS 1000 50).1.headD [])
      ("eventdata_source_" ++ "unknown") = some (Value.vint n) ∧ 0 ≤ n :=
  pipeline_fixed_sources_nonneg scenarioUp ["0000-0002-1825-0097"] "a@b"
    DEFAULT_FONTES_FIXAS 1000 50 _ (by decide) "unknown" (by decide)

/-! ### Column union and reconciled column order -/

theorem mem_firstDedupGo (l : List String) : ∀ (seen : List String) (c : String),
    c ∈ firstDedupGo seen l ↔ c ∈ l ∧ c ∉ seen := by
  induction l with
  | nil => intro seen c; simp [firstDedupGo]
  | cons a rest ih =>
    intro seen c
    simp only [firstDedupGo]
    split
    · rename_i ha
      rw [ih]
      constructor
      · rintro ⟨hc, hcs⟩
        exact ⟨List.mem_cons_of_mem _ hc, hcs⟩
      · rintro ⟨hc, hcs⟩
        rcases List.mem_cons.mp hc with h1 | h1
        · subst h1; exact absurd ha hcs
        · exact ⟨h1, hcs⟩
    · rename_i ha
      constructor
      · intro h
        rcases List.mem_cons.mp h with h1 | h1
        · subst h1
          exact ⟨List.mem_cons_self _ _, ha⟩
        · obtain ⟨hc, hcs⟩ := (ih _ _).mp h1
          exact ⟨List.mem_cons_of_mem _ hc, fun h2 => hcs (List.mem_cons_of_mem _ h2)⟩
      · rintro ⟨hc, hcs⟩
        rcases List.mem_cons.mp hc with h1 | h1
        · subst h1; exact List.mem_cons_self _ _
        · by_cases hca : c = a
          · subst hca; exact List.mem_cons_self _ _
          · exact List.mem_cons_of_mem _ ((ih _ _).mpr ⟨h1, fun h2 =>
              (List.mem_cons.mp h2).elim hca hcs⟩)

theorem firstDedupGo_nodup (l : List String) : ∀ seen : List String,
    (firstDedupGo seen l).Nodup := by
  induction l with
  | nil => intro seen; simp [firstDedupGo]
  | cons a rest ih =>
    intro seen
    simp only [firstDedupGo]
    split
    · exact ih seen
    · refine List.nodup_cons.mpr ⟨fun h => ?_, ih _⟩
      exact ((mem_firstDedupGo rest (a :: seen) a).mp h).2 (List.mem_cons_self _ _)

theorem mem_dfColumns (rws : List (Dict Value)) (c : String) :
    c ∈ dfColumns rws ↔ ∃ r ∈ rws, c ∈ dictKeys r := by
  unfold dfColumns
  rw [mem_firstDedupGo]
  simp [List.mem_flatMap]

theorem dfColumns_nodup (rws : List (Dict Value)) : (dfColumns rws).Nodup :=
  firstDedupGo_nodup _ []

theorem mem_keys_of_get {α : Type} (d : Dict α) (k : String) (v : α)
    (h : dictGet? d k = some v) : k ∈ dictKeys d := by
  by_contra hk
  rw [← dictGet?_eq_none_iff] at hk
  rw [hk] at h
  cases h

theorem isPrefixOf_append_self (l1 l2 : List Char) : l1.isPrefixOf (l1 ++ l2) = true := by
  induction l1 with
  | nil => simp [List.isPrefixOf]
  | cons a as ih => simp [List.isPrefixOf, ih]

theorem pyStartsWith_append (p s : String) : pyStartsWith (p ++ s) p = true := by
  unfold pyStartsWith
  rw [String.data_append]
  exact isPrefixOf_append_self _ _

theorem evKey_not_crossref (s : String) :
    pyStartsWith ("eventdata_source_" ++ s) "crossref_" = false := rfl

theorem evKey_ne_short (x : String) (c : String) (hc : c.data.length < 17) :
    "eventdata_source_" ++ x ≠ c := by
  intro h
  have h2 : (("eventdata_source_" ++ x).data).length = (c.data).length :=
    congrArg (fun t => t.data.length) h
  rw [String.data_append, List.length_append] at h2
  have h3 : ("eventdata_source_".data).length = 17 := rfl
  rw [h3] at h2
  omega

theorem mem_dictKeys_foldl_insertKey_of_mem {α : Type} (f : String → α) (l : List String)
    (c : String) : ∀ d : Dict α, c ∈ dictKeys d →
    c ∈ dictKeys (l.foldl (fun acc x => dictInsert acc ("eventdata_source_" ++ x) (f x)) d) := by
  induction l with
  | nil => intro d h; exact h
  | cons a rest ih =>
    intro d h
    rw [List.foldl_cons]
    exact ih _ ((mem_dictKeys_insert _ _ _ _).mpr (Or.inl h))

theorem mem_ordenarCols (cols fontes : List String) (c : String) :
    c ∈ ordenarCols cols fontes ↔ c ∈ cols := by
  simp only [ordenarCols]
  constructor
  · intro h
    rcases List.mem_append.mp h with h1 | h1
    · rcases List.mem_append.mp h1 with h2 | h2
      · rcases List.mem_append.mp h2 with h3 | h3
        · exact of_decide_eq_true (List.mem_filter.mp h3).2
        · exact of_decide_eq_true (List.mem_filter.mp h3).2
      · have h3 := (List.perm_insertionSort pyLeS _).mem_iff.mp h2
        exact (List.mem_filter.mp h3).1
    · exact (List.mem_filter.mp h1).1
  · intro hc
    by_cases hb : c ∈ cols_base
    · exact List.mem_append.mpr (Or.inl (List.mem_append.mpr (Or.inl
        (List.mem_append.mpr (Or.inl (List.mem_filter.mpr ⟨hb, decide_eq_true hc⟩))))))
    · by_cases hpre : pyStartsWith c "eventdata_source_" = true
      · by_cases hf : c ∈ (fontes.map (fun s => "eventdata_source_" ++ s)).filter
          (fun x => decide (x ∈ cols))
        · exact List.mem_append.mpr (Or.inl (List.mem_append.mpr (Or.inl
            (List.mem_append.mpr (Or.inr hf)))))
        · refine List.mem_append.mpr (Or.inl (List.mem_append.mpr (Or.inr ?_)))
          refine (List.perm_insertionSort pyLeS _).mem_iff.mpr ?_
          refine List.mem_filter.mpr ⟨hc, ?_⟩
          rw [hpre]
          simpa using hf
      · refine List.mem_append.mpr (Or.inr (List.mem_filter.mpr ⟨hc, decide_eq_true ?_⟩))
        intro hmem
        rcases List.mem_append.mp hmem with h1 | h1
        · rcases List.mem_append.mp h1 with h2 | h2
          · exact hb h2
          · obtain ⟨hmap, _⟩ := List.mem_filter.mp h2
            obtain ⟨x, _, hx⟩ := List.mem_map.mp hmap
            exact hpre (hx ▸ pyStartsWith_append "eventdata_source_" x)
        · have h3 := (List.perm_insertionSort pyLeS _).mem_iff.mp h1
          have h4 := (List.mem_filter.mp h3).2
          simp only [Bool.and_eq_true] at h4
          exact hpre h4.1

/-! ### The no-DOI scenario (C2) -/

/-- C2 counterexample: in the no-DOI scenario with the default fixed
sources, the output table has no citation-metadata columns at all — the
"crossref_publisher" cell is absent rather than null. -/
theorem scenario_citation_columns_absent :
    ¬ ("crossref_publisher" ∈ (scenarioTable DEFAULT_FONTES_FIXAS).cols) ∧
    cellAt (scenarioTable DEFAULT_FONTES_FIXAS) 0 "crossref_publisher" = none ∧
    cellAt (scenarioTable DEFAULT_FONTES_FIXAS) 0 "crossref_publisher" ≠
      some Value.vnull := by decide

theorem scenario_rows :
    ∀ fontes : List String,
    (coletar_para_lista_orcids scenarioUp ["0000-0002-1825-0097"] "a@b" fontes 1000 50).1 =
      [setZeros scenarioLinha fontes] :=
  fun _ => rfl

/-- C2 amended: for the input list `["0000-0002-1825-0097"]`, a registry
listing exactly one work whose detail yields no DOI, the pipeline's output
table has exactly one row, whose DOI column is null and whose every
configured fixed mention-source column equals 0; the citation-metadata
columns are not null but absent — no column of the table starts with
`crossref_`. -/
theorem scenario_no_doi_table (fontes : List String) :
    (scenarioTable fontes).rws.length = 1 ∧
    cellAt (scenarioTable fontes) 0 "doi" = some Value.vnull ∧
    (∀ s ∈ fontes, cellAt (scenarioTable fontes) 0 ("eventdata_source_" ++ s) =
      some (Value.vint 0)) ∧
    (∀ c, pyStartsWith c "crossref_" = true → c ∉ (scenarioTable fontes).cols) := by
  have htab : scenarioTable fontes =
      ⟨ordenarCols (dfColumns [setZeros scenarioLinha fontes]) fontes,
       [setZeros scenarioLinha fontes]⟩ := by
    unfold scenarioTable ordenar_colunas
    rw [scenario_rows fontes]
  refine ⟨by rw [htab]; rfl, ?_, ?_, ?_⟩
  · have hget : dictGet? (setZeros scenarioLinha fontes) "doi" = some Value.vnull := by
      rw [setZeros_get_of_ne _ _ _ (fun x _ => evKey_ne_short x "doi" (by decide))]
      decide
    have hmem : "doi" ∈ dfColumns [setZeros scenarioLinha fontes] :=
      (mem_dfColumns _ _).mpr ⟨_, List.mem_singleton.mpr rfl, mem_keys_of_get _ _ _ hget⟩
    rw [htab]
    unfold cellAt
    rw [if_pos ((mem_ordenarCols _ _ _).mpr hmem)]
    simpa using hget
  · intro s hs
    have hget := setZeros_get scenarioLinha fontes s hs
    have hmem : ("eventdata_source_" ++ s) ∈ dfColumns [setZeros scenarioLinha fontes] :=
      (mem_dfColumns _ _).mpr ⟨_, List.mem_singleton.mpr rfl, mem_keys_of_get _ _ _ hget⟩
    rw [htab]
    unfold cellAt
    rw [if_pos ((mem_ordenarCols _ _ _).mpr hmem)]
    simpa using hget
  · intro c hc hmem
    rw [htab] at hmem
    have h1 := (mem_ordenarCols _ _ _).mp hmem
    obtain ⟨r, hr, hkey⟩ := (mem_dfColumns _ _).mp h1
    rw [List.mem_singleton] at hr
    subst hr
    rcases mem_dictKeys_foldl_insertKey (fun _ => Value.vint 0) fontes c _ hkey with h2 | h2
    · rw [show dictKeys scenarioLinha = ["orcid", "put_code", "title", "type",
        "publication_year_orcid", "source_orcid", "doi"] from rfl] at h2
      simp only [List.mem_cons, List.not_mem_nil, or_false] at h2
      rcases h2 with rfl | rfl | rfl | rfl | rfl | rfl | rfl <;> exact absurd hc (by decide)
    · obtain ⟨x, hx⟩ := h2
      rw [hx, evKey_not_crossref x] at hc
      cases hc

/-- Witness for the amended C2 at the default fixed-source configuration. -/
theorem scenario_no_doi_table_witness :
    (scenarioTable DEFAULT_FONTES_FIXAS).rws.length = 1 ∧
    cellAt (scenarioTable DEFAULT_FONTES_FIXAS) 0 "doi" = some Value.vnull ∧
    cellAt (scenarioTable DEFAULT_FONTES_FIXAS) 0 ("eventdata_source_" ++ "news") =
      some (Value.vint 0) ∧
    ¬ ("crossref_container_title" ∈ (scenarioTable DEFAULT_FONTES_FIXAS).cols) :=
  ⟨(scenario_no_doi_table DEFAULT_FONTES_FIXAS).1,
   (scenario_no_doi_table DEFAULT_FONTES_FIXAS).2.1,
   (scenario_no_doi_table DEFAULT_FONTES_FIXAS).2.2.1 "news" (by decide),
   (scenario_no_doi_table DEFAULT_FONTES_FIXAS).2.2.2 "crossref_container_title" (by decide)⟩

/-! ### The string order used by `sorted` -/

theorem strLtL_asymm : ∀ (a b : List Char), strLtL a b = true → strLtL b a = false := by
  intro a
  induction a with
  | nil =>
    intro b h
    cases b with
    | nil => simp [strLtL] at h
    | cons c cs => simp [strLtL]
  | cons x xs ih =>
    intro b h
    cases b with
    | nil => simp [strLtL] at h
    | cons y ys =>
      simp only [strLtL] at h ⊢
      by_cases h1 : x.toNat < y.toNat
      · rw [if_neg (by omega), if_pos h1]
      · by_cases h2 : y.toNat < x.toNat
        · rw [if_neg h1, if_pos h2] at h
          cases h
        · rw [if_neg h1, if_neg h2] at h
          rw [if_neg h2, if_neg h1]
          exact ih ys h

theorem strLtL_eq_of_both_false : ∀ (a b : List Char),
    strLtL a b = false → strLtL b a = false → a = b := by
  intro a
  induction a with
  | nil =>
    intro b h1 _
    cases b with
    | nil => rfl
    | cons y ys => simp [strLtL] at h1
  | cons x xs ih =>
    intro b h1 h2
    cases b with
    | nil => simp [strLtL] at h2
    | cons y ys =>
      simp only [strLtL] at h1 h2
      by_cases hxy : x.toNat < y.toNat
      · rw [if_pos hxy] at h1; cases h1
      · by_cases hyx : y.toNat < x.toNat
        · rw [if_pos hyx] at h2; cases h2
        · rw [if_neg hxy, if_neg hyx] at h1
          rw [if_neg hyx, if_neg hxy] at h2
          have hx : x = y := by
            have he : x.toNat = y.toNat := by omega
            have := congrArg Char.ofNat he
            simpa [Char.ofNat_toNat] using this
          rw [hx, ih ys h1 h2]

theorem strLtL_trans : ∀ (a b c : List Char),
    strLtL a b = true → strLtL b c = true → strLtL a c = true := by
  intro a
  induction a with
  | nil =>
    intro b c h1 h2
    cases c with
    | nil => cases b <;> simp [strLtL] at h2
    | cons z zs => simp [strLtL]
  | cons x xs ih =>
    intro b c h1 h2
    cases b with
    | nil => simp [strLtL] at h1
    | cons y ys =>
      cases c with
      | nil => simp [strLtL] at h2
      | cons z zs =>
        simp only [strLtL] at h1 h2 ⊢
        by_cases hxy : x.toNat < y.toNat
        · by_cases hyz : y.toNat < z.toNat
          · rw [if_pos (by omega)]
          · by_cases hzy : z.toNat < y.toNat
            · rw [if_neg hyz, if_pos hzy] at h2; cases h2
            · rw [if_pos (by omega)]
        · by_cases hyx : y.toNat < x.toNat
          · rw [if_neg hxy, if_pos hyx] at h1; cases h1
          · rw [if_neg hxy, if_neg hyx] at h1
            by_cases hyz : y.toNat < z.toNat
            · rw [if_pos (by omega)]
            · by_cases hzy : z.toNat < y.toNat
              · rw [if_neg hyz, if_pos hzy] at h2; cases h2
              · rw [if_neg hyz, if_neg hzy] at h2
                rw [if_neg (by omega), if_neg (by omega)]
                exact ih ys zs h1 h2

instance : IsTotal String pyLeS := ⟨fun a b => by
  unfold pyLeS strLeB
  cases h : strLtL b.data a.data
  · exact Or.inl (by simp)
  · exact Or.inr (by simp [strLtL_asymm _ _ h])⟩

instance : IsTrans String pyLeS := ⟨fun a b c hab hbc => by
  unfold pyLeS strLeB at hab hbc ⊢
  rw [Bool.not_eq_true'] at hab hbc ⊢
  by_contra hca
  rw [Bool.not_eq_false] at hca
  cases hab2 : strLtL a.data b.data
  · have he := strLtL_eq_of_both_false _ _ hab2 hab
    rw [he] at hca
    rw [hbc] at hca
    cases hca
  · have hcb := strLtL_trans _ _ _ hca hab2
    rw [hbc] at hcb
    cases hcb⟩

instance : IsAntisymm String pyLeS := ⟨fun a b h1 h2 => by
  unfold pyLeS strLeB at h1 h2
  cases hba : strLtL b.data a.data with
  | true => rw [hba] at h1; cases h1
  | false =>
    cases hab : strLtL a.data b.data with
    | true => rw [hab] at h2; cases h2
    | false => exact String.ext (strLtL_eq_of_both_false _ _ hab hba)⟩

/-! ### Shape of the pipeline's columns (for C3) -/

theorem coletar_mem_rows (up : Upstream) (email : String) (fontes : List String)
    (rows maxPages total : Nat) : ∀ (l : List String) (idx : Nat) (linha : Dict Value),
    linha ∈ (coletarGo up email fontes rows maxPages total idx l).1 →
    ∃ orcid w, linha = buildRow up email fontes rows maxPages orcid w := by
  intro l
  induction l with
  | nil => intro idx linha hl; simp [coletarGo] at hl
  | cons o rest ih =>
    intro idx linha hl
    simp only [coletarGo] at hl
    cases hlw : up.listWorks (normalizar_orcid o) with
    | error e =>
      rw [hlw] at hl
      exact ih _ _ hl
    | ok works =>
      rw [hlw] at hl
      simp only [List.mem_append] at hl
      rcases hl with hl | hl
      · obtain ⟨w, _, hwr⟩ := List.mem_map.mp hl
        exact ⟨normalizar_orcid o, w, hwr.symm⟩
      · exact ih _ _ hl

theorem seven_base (c : String) (h : c ∈ ["orcid", "put_code", "title", "type",
    "publication_year_orcid", "source_orcid", "doi"]) : c ∈ cols_base := by
  simp only [List.mem_cons, List.not_mem_nil, or_false] at h
  rcases h with rfl | rfl | rfl | rfl | rfl | rfl | rfl <;> decide

theorem crossrefDict_keys_base (cr : CrossrefRec) (c : String)
    (h : c ∈ dictKeys (crossrefDict cr)) : c ∈ cols_base := by
  simp only [crossrefDict, dictKeys_cons, dictKeys_nil, List.mem_cons,
    List.not_mem_nil, or_false] at h
  rcases h with rfl | rfl | rfl | rfl | rfl <;> decide

theorem crossrefNulls_keys_base (c : String)
    (h : c ∈ dictKeys crossrefNulls) : c ∈ cols_base := by
  rcases (by decide : dictKeys crossrefNulls = ["crossref_is_referenced_by_count",
    "crossref_references_count", "crossref_container_title", "crossref_publisher",
    "crossref_issued_year"]) ▸ h with h2
  simp only [List.mem_cons, List.not_mem_nil, or_false] at h2
  rcases h2 with rfl | rfl | rfl | rfl | rfl <;> decide

theorem eventdata_out_keys_image (feed : EdRequest → Except Unit EventPage)
    (doi email : String) (fontes : List String) (rows maxPages : Nat) (out : Dict Value)
    (hok : (eventdata_por_doi feed doi email fontes rows maxPages).1 = Except.ok out)
    (c : String) (hc : c ∈ dictKeys out) : ∃ x, c = "eventdata_source_" ++ x := by
  simp only [eventdata_por_doi] at hok
  cases hgo : (edGo feed doi email rows maxPages none []).1 with
  | error e => rw [hgo] at hok; simp at hok
  | ok tally =>
    rw [hgo] at hok
    simp only [Except.ok.injEq] at hok
    rw [← hok] at hc
    rcases mem_dictKeys_edExtraOut tally _ _ hc with h1 | h1
    · rcases mem_dictKeys_foldl_insertKey _ fontes c _ h1 with h2 | h2
      · simp at h2
      · exact h2
    · exact h1

theorem buildRow_keys_shape (up : Upstream) (email : String) (fontes : List String)
    (rows maxPages : Nat) (orcid : String) (w : Work) :
    ∀ c ∈ dictKeys (buildRow up email fontes rows maxPages orcid w),
    c ∈ cols_base ∨ pyStartsWith c "eventdata_source_" = true := by
  have hlinha : ∀ (dv : Value) (c : String),
      c ∈ dictKeys [("orcid", Value.vstr orcid), ("put_code", w.put_code),
        ("title", w.title), ("type", w.type),
        ("publication_year_orcid", w.publication_year_orcid),
        ("source_orcid", w.source_orcid), ("doi", dv)] → c ∈ cols_base := by
    intro dv c h
    simp only [dictKeys_cons, dictKeys_nil] at h
    exact seven_base c h
  simp only [buildRow]
  split
  · split
    · rename_i out hok
      intro c hc
      rcases mem_dictKeys_update _ _ _ hc with h1 | h1
      · revert h1
        split
        · intro h1
          rcases mem_dictKeys_update _ _ _ h1 with h2 | h2
          · exact Or.inl (hlinha _ c h2)
          · exact Or.inl (crossrefDict_keys_base _ c h2)
        · intro h1
          rcases mem_dictKeys_update _ _ _ h1 with h2 | h2
          · exact Or.inl (hlinha _ c h2)
          · exact Or.inl (crossrefNulls_keys_base c h2)
      · obtain ⟨x, hx⟩ := eventdata_out_keys_image up.edFeed _ email fontes rows maxPages
          out hok c h1
        exact Or.inr (hx ▸ pyStartsWith_append _ _)
    · intro c hc
      rcases mem_dictKeys_foldl_insertKey _ fontes c _ hc with h1 | h1
      · revert h1
        split
        · intro h1
          rcases mem_dictKeys_update _ _ _ h1 with h2 | h2
          · exact Or.inl (hlinha _ c h2)
          · exact Or.inl (crossrefDict_keys_base _ c h2)
        · intro h1
          rcases mem_dictKeys_update _ _ _ h1 with h2 | h2
          · exact Or.inl (hlinha _ c h2)
          · exact Or.inl (crossrefNulls_keys_base c h2)
      · obtain ⟨x, hx⟩ := h1
        exact Or.inr (hx ▸ pyStartsWith_append _ _)
  · intro c hc
    rcases mem_dictKeys_foldl_insertKey _ fontes c _ hc with h1 | h1
    · exact Or.inl (hlinha _ c h1)
    · obtain ⟨x, hx⟩ := h1
      exact Or.inr (hx ▸ pyStartsWith_append _ _)

theorem coletar_columns_shape (up : Upstream) (orcids : List String) (email : String)
    (fontes : List String) (rows maxPages : Nat) :
    ∀ c ∈ dfColumns (coletar_para_lista_orcids up orcids email fontes rows maxPages).1,
    c ∈ cols_base ∨ pyStartsWith c "eventdata_source_" = true := by
  intro c hc
  obtain ⟨r, hr, hkey⟩ := (mem_dfColumns _ _).mp hc
  obtain ⟨orcid, w, rfl⟩ := coletar_mem_rows up email fontes rows maxPages
    orcids.length orcids 1 r hr
  exact buildRow_keys_shape up email fontes rows maxPages orcid w c hkey

/-! ### Determinism of ordenar_colunas (C3) -/

theorem ordenarCols_eq_of_shape (cols fontes : List String)
    (hshape : ∀ c ∈ cols, c ∈ cols_base ∨ pyStartsWith c "eventdata_source_" = true) :
    ordenarCols cols fontes =
      cols_base.filter (fun c => decide (c ∈ cols)) ++
      (fontes.map (fun s => "eventdata_source_" ++ s)).filter
        (fun c => decide (c ∈ cols)) ++
      (cols.filter (fun c => pyStartsWith c "eventdata_source_" &&
        decide (c ∉ (fontes.map (fun s => "eventdata_source_" ++ s)).filter
          (fun c => decide (c ∈ cols))))).insertionSort pyLeS := by
  simp only [ordenarCols]
  rw [List.append_right_eq_self, List.filter_eq_nil_iff]
  intro c hc hdec
  have hnot := of_decide_eq_true hdec
  apply hnot
  rcases hshape c hc with hb | hpre
  · exact List.mem_append.mpr (Or.inl (List.mem_append.mpr (Or.inl hb)))
  · by_cases hf : c ∈ (fontes.map (fun s => "eventdata_source_" ++ s)).filter
      (fun x => decide (x ∈ cols))
    · exact List.mem_append.mpr (Or.inl (List.mem_append.mpr (Or.inr hf)))
    · refine List.mem_append.mpr (Or.inr ?_)
      refine (List.perm_insertionSort pyLeS _).mem_iff.mpr (List.mem_filter.mpr ⟨hc, ?_⟩)
      rw [hpre]
      simpa using hf

theorem ordenarCols_congr (cols1 cols2 fontes : List String)
    (hnd1 : cols1.Nodup) (hnd2 : cols2.Nodup)
    (hshape1 : ∀ c ∈ cols1, c ∈ cols_base ∨ pyStartsWith c "eventdata_source_" = true)
    (hiff : ∀ c, c ∈ cols1 ↔ c ∈ cols2) :
    ordenarCols cols1 fontes = ordenarCols cols2 fontes := by
  have hshape2 : ∀ c ∈ cols2, c ∈ cols_base ∨ pyStartsWith c "eventdata_source_" = true :=
    fun c hc => hshape1 c ((hiff c).mpr hc)
  have hbase : cols_base.filter (fun c => decide (c ∈ cols1)) =
      cols_base.filter (fun c => decide (c ∈ cols2)) :=
    List.filter_congr (fun c _ => decide_eq_decide.mpr (hiff c))
  have hfix : (fontes.map (fun s => "eventdata_source_" ++ s)).filter
      (fun c => decide (c ∈ cols1)) =
      (fontes.map (fun s => "eventdata_source_" ++ s)).filter
        (fun c => decide (c ∈ cols2)) :=
    List.filter_congr (fun c _ => decide_eq_decide.mpr (hiff c))
  have hperm : List.Perm
      (cols1.filter (fun c => pyStartsWith c "eventdata_source_" &&
        decide (c ∉ (fontes.map (fun s => "eventdata_source_" ++ s)).filter
          (fun c => decide (c ∈ cols2)))))
      (cols2.filter (fun c => pyStartsWith c "eventdata_source_" &&
        decide (c ∉ (fontes.map (fun s => "eventdata_source_" ++ s)).filter
          (fun c => decide (c ∈ cols2))))) := by
    rw [List.perm_ext_iff_of_nodup (hnd1.filter _) (hnd2.filter _)]
    intro c
    simp only [List.mem_filter]
    exact ⟨fun ⟨h, hp⟩ => ⟨(hiff c).mp h, hp⟩, fun ⟨h, hp⟩ => ⟨(hiff c).mpr h, hp⟩⟩
  have hsorted : (cols1.filter (fun c => pyStartsWith c "eventdata_source_" &&
      decide (c ∉ (fontes.map (fun s => "eventdata_source_" ++ s)).filter
        (fun c => decide (c ∈ cols2))))).insertionSort pyLeS =
      (cols2.filter (fun c => pyStartsWith c "eventdata_source_" &&
        decide (c ∉ (fontes.map (fun s => "eventdata_source_" ++ s)).filter
          (fun c => decide (c ∈ cols2))))).insertionSort pyLeS :=
    List.eq_of_perm_of_sorted
      (((List.perm_insertionSort pyLeS _).trans hperm).trans
        (List.perm_insertionSort pyLeS _).symm)
      (List.sorted_insertionSort pyLeS _) (List.sorted_insertionSort pyLeS _)
  rw [ordenarCols_eq_of_shape cols1 fontes hshape1,
    ordenarCols_eq_of_shape cols2 fontes hshape2, hbase, hfix, hsorted]

/-- C3: the reconciled column order is the present fixed base columns in
their enumerated order, then the present configured fixed mention-source
columns in configured order, then the remaining mention-source columns
sorted lexicographically — for pipeline rows nothing else remains; and two
pipeline runs with the same configured fixed sources and the same set of
row columns yield the identical column order, independent of row values. -/
theorem ordenar_colunas_deterministic (up1 up2 : Upstream)
    (orcids1 orcids2 : List String) (email1 email2 : String) (fontes : List String)
    (rows1 rows2 mp1 mp2 : Nat)
    (hcols : ∀ c,
      c ∈ dfColumns (coletar_para_lista_orcids up1 orcids1 email1 fontes rows1 mp1).1 ↔
      c ∈ dfColumns (coletar_para_lista_orcids up2 orcids2 email2 fontes rows2 mp2).1) :
    (ordenar_colunas (coletar_para_lista_orcids up1 orcids1 email1 fontes rows1 mp1).1
      fontes).cols =
    (ordenar_colunas (coletar_para_lista_orcids up2 orcids2 email2 fontes rows2 mp2).1
      fontes).cols ∧
    ∀ (up : Upstream) (orcids : List String) (email : String) (rws mp : Nat),
      (ordenar_colunas (coletar_para_lista_orcids up orcids email fontes rws mp).1
        fontes).cols =
        cols_base.filter (fun c =>
          decide (c ∈ dfColumns (coletar_para_lista_orcids up orcids email fontes rws mp).1)) ++
        (fontes.map (fun s => "eventdata_source_" ++ s)).filter (fun c =>
          decide (c ∈ dfColumns (coletar_para_lista_orcids up orcids email fontes rws mp).1)) ++
        ((dfColumns (coletar_para_lista_orcids up orcids email fontes rws mp).1).filter
          (fun c => pyStartsWith c "eventdata_source_" &&
            decide (c ∉ (fontes.map (fun s => "eventdata_source_" ++ s)).filter (fun c =>
              decide (c ∈ dfColumns
                (coletar_para_lista_orcids up orcids email fontes rws mp).1))))).insertionSort
          pyLeS := by
  constructor
  · exact ordenarCols_congr _ _ fontes (dfColumns_nodup _) (dfColumns_nodup _)
      (coletar_columns_shape up1 orcids1 email1 fontes rows1 mp1) hcols
  · intro up orcids email rws mp
    exact ordenarCols_eq_of_shape _ fontes (coletar_columns_shape up orcids email fontes rws mp)

/-- Witness for C3: two scenario runs over different identifiers, emails,
page settings and row values whose rows carry the same column set. -/
theorem ordenar_colunas_deterministic_witness :
    (ordenar_colunas (coletar_para_lista_orcids scenarioUp ["0000-0002-1825-0097"] "a@b"
      ["twitter"] 5 5).1 ["twitter"]).cols =
    (ordenar_colunas (coletar_para_lista_orcids scenarioUp2 ["0000-0001-0000-0000"] ""
      ["twitter"] 7 9).1 ["twitter"]).cols :=
  (ordenar_colunas_deterministic scenarioUp scenarioUp2 ["0000-0002-1825-0097"]
    ["0000-0001-0000-0000"] "a@b" "" ["twitter"] 5 7 5 9 (fun _ => Iff.rfl)).1

/-! ### The text DOI extractor against its declarative contract (C9) -/

theorem dropWhile_head_false (p : Char → Bool) (l : List Char) (a : Char) (as : List Char)
    (h : l.dropWhile p = a :: as) : p a = false := by
  induction l with
  | nil => cases h
  | cons x xs ih =>
    cases hx : p x with
    | true => rw [List.dropWhile_cons_of_pos hx] at h; exact ih h
    | false =>
      rw [List.dropWhile_cons_of_neg (by simp [hx])] at h
      injection h with h1 _
      rw [← h1]
      exact hx

theorem takeWhile_append_of_all (p : Char → Bool) (l1 l2 : List Char)
    (h : ∀ c ∈ l1, p c = true) : (l1 ++ l2).takeWhile p = l1 ++ l2.takeWhile p := by
  induction l1 with
  | nil => simp
  | cons a as ih =>
    rw [List.cons_append, List.takeWhile_cons_of_pos (h a (List.mem_cons_self _ _)),
      ih (fun c hc => h c (List.mem_cons_of_mem _ hc)), List.cons_append]

theorem matchDoiHere_spec_forward (cs m : List Char) (h : matchDoiHere cs = some m) :
    SpecMatch cs m := by
  rcases cs with _ | ⟨c1, _ | ⟨c2, _ | ⟨c3, rest⟩⟩⟩
  · cases h
  · cases h
  · cases h
  · simp only [matchDoiHere] at h
    by_cases h1 : c1 = '1' ∧ c2 = '0' ∧ c3 = '.'
    · rw [if_pos h1] at h
      obtain ⟨rfl, rfl, rfl⟩ := h1
      set ds := rest.takeWhile Char.isDigit with hds
      by_cases h2 : 4 ≤ ds.length ∧ ds.length ≤ 9
      · rw [if_pos h2] at h
        split at h
        · rename_i c4 rest2 hdrop
          by_cases h4 : c4 = '/'
          · rw [if_pos h4] at h
            subst h4
            set suf := rest2.takeWhile allowedTail with hsuf
            by_cases h5 : suf = []
            · rw [if_pos h5] at h
              cases h
            · rw [if_neg h5] at h
              injection h with hm
              have ht : ds ++ rest.dropWhile Char.isDigit = rest := by
                rw [hds]
                exact List.takeWhile_append_dropWhile _ _
              have hdt : rest.dropWhile Char.isDigit = '/' :: rest2 := by
                have h6 := congrArg (List.drop ds.length) ht
                rw [List.drop_left] at h6
                rw [hdrop] at h6
                exact h6
              have ht2 : suf ++ rest2.dropWhile allowedTail = rest2 := by
                rw [hsuf]
                exact List.takeWhile_append_dropWhile _ _
              refine ⟨ds, suf, rest2.dropWhile allowedTail, ?_, hm.symm, ?_, h2.1, h2.2,
                h5, ?_, ?_⟩
              · conv_lhs => rw [← ht, hdt, ← ht2]
              · intro c hc
                rw [hds] at hc
                exact List.mem_takeWhile_imp hc
              · intro c hc
                rw [hsuf] at hc
                exact List.mem_takeWhile_imp hc
              · intro r rs hr
                exact dropWhile_head_false _ _ _ _ hr
          · rw [if_neg h4] at h
            cases h
        · cases h
      · rw [if_neg h2] at h
        cases h
    · rw [if_neg h1] at h
      cases h

theorem matchDoiHere_spec_backward (cs m : List Char) (h : SpecMatch cs m) :
    matchDoiHere cs = some m := by
  obtain ⟨ds, suf, rrest, hcs, hm, hdig, hlen4, hlen9, hsufne, hsufall, hmax⟩ := h
  subst hcs
  have htake : (ds ++ '/' :: (suf ++ rrest)).takeWhile Char.isDigit = ds := by
    rw [takeWhile_append_of_all _ _ _ hdig, List.takeWhile_cons_of_neg (by decide),
      List.append_nil]
  have hsuftake : (suf ++ rrest).takeWhile allowedTail = suf := by
    rw [takeWhile_append_of_all _ _ _ hsufall]
    cases rrest with
    | nil => simp
    | cons r rs =>
      rw [List.takeWhile_cons_of_neg (by simp [hmax r rs rfl]), List.append_nil]
  simp [matchDoiHere, htake, hlen4, hlen9, List.drop_left, hsuftake, hsufne, hm]

theorem searchDoi_eq_none_iff (cs : List Char) :
    searchDoi cs = none ↔ ∀ i m, ¬ SpecMatch (cs.drop i) m := by
  induction cs with
  | nil =>
    constructor
    · intro _ i m hsm
      obtain ⟨ds, suf, rrest, hcs, _⟩ := hsm
      simp at hcs
    · intro _
      rfl
  | cons c cs' ih =>
    constructor
    · intro h i m hsm
      cases hm : matchDoiHere (c :: cs') with
      | some m2 =>
        simp [searchDoi, hm] at h
      | none =>
        simp only [searchDoi, hm] at h
        cases i with
        | zero =>
          have hsm' : SpecMatch (c :: cs') m := hsm
          have h2 := matchDoiHere_spec_backward _ _ hsm'
          rw [hm] at h2
          cases h2
        | succ j =>
          exact (ih.mp h) j m hsm
    · intro hall
      cases hm : matchDoiHere (c :: cs') with
      | some m2 =>
        have : SpecMatch ((c :: cs').drop 0) m2 := matchDoiHere_spec_forward _ _ hm
        exact absurd this (hall 0 m2)
      | none =>
        simp only [searchDoi, hm]
        exact ih.mpr (fun j m => hall (j + 1) m)

theorem searchDoi_eq_some_iff (cs : List Char) (m : List Char) :
    searchDoi cs = some m ↔
      ∃ i, SpecMatch (cs.drop i) m ∧ ∀ j m', j < i → ¬ SpecMatch (cs.drop j) m' := by
  induction cs with
  | nil =>
    constructor
    · intro h; cases h
    · rintro ⟨i, hsm, _⟩
      obtain ⟨ds, suf, rrest, hcs, _⟩ := hsm
      simp at hcs
  | cons c cs' ih =>
    cases hm : matchDoiHere (c :: cs') with
    | some m2 =>
      simp only [searchDoi, hm]
      constructor
      · intro h
        injection h with h
        subst h
        exact ⟨0, matchDoiHere_spec_forward _ _ hm,
          fun j m' hj => absurd hj (Nat.not_lt_zero j)⟩
      · rintro ⟨i, hsm, hmin⟩
        cases i with
        | zero =>
          have hsm' : SpecMatch (c :: cs') m := hsm
          have h2 := matchDoiHere_spec_backward _ _ hsm'
          rw [hm] at h2
          injection h2 with h2
          rw [h2]
        | succ j =>
          have : SpecMatch ((c :: cs').drop 0) m2 := matchDoiHere_spec_forward _ _ hm
          exact absurd this (hmin 0 m2 (Nat.succ_pos j))
    | none =>
      simp only [searchDoi, hm]
      rw [ih]
      constructor
      · rintro ⟨i, hsm, hmin⟩
        refine ⟨i + 1, hsm, ?_⟩
        intro j m' hj
        cases j with
        | zero =>
          intro hsm0
          have hsm0' : SpecMatch (c :: cs') m' := hsm0
          have h2 := matchDoiHere_spec_backward _ _ hsm0'
          rw [hm] at h2
          cases h2
        | succ k =>
          exact hmin k m' (by omega)
      · rintro ⟨i, hsm, hmin⟩
        cases i with
        | zero =>
          have hsm' : SpecMatch (c :: cs') m := hsm
          have h2 := matchDoiHere_spec_backward _ _ hsm'
          rw [hm] at h2
          cases h2
        | succ j =>
          exact ⟨j, hsm, fun k m' hk => hmin (k + 1) m' (by omega)⟩

theorem rstripPunct_getLast (l : List Char) (c : Char)
    (h : (rstripPunct l).getLast? = some c) : doiPunct c = false := by
  unfold rstripPunct at h
  rw [List.getLast?_reverse] at h
  cases hd : l.reverse.dropWhile doiPunct with
  | nil => rw [hd] at h; cases h
  | cons a as =>
    rw [hd] at h
    injection h with h
    rw [← h]
    exact dropWhile_head_false _ _ _ _ hd

/-- C9: DOI extraction returns exactly the leftmost greedy match of
`10.` + 4–9 digits + `/` + one-or-more allowed tail characters inside the
stripped input, with the trailing punctuation `)`, `.`, `,`, `;`, `]`
stripped from its end (so its last character is never one of them); it
returns nothing on null or empty input and when no such match exists. -/
theorem extrair_doi_de_texto_spec :
    extrair_doi_de_texto none = none ∧
    extrair_doi_de_texto (some "") = none ∧
    (∀ t : String,
      (extrair_doi_de_texto (some t) = none ↔
        ∀ i m, ¬ SpecMatch ((pyStripL t.data).drop i) m) ∧
      (∀ r, extrair_doi_de_texto (some t) = some r ↔
        ∃ i m, SpecMatch ((pyStripL t.data).drop i) m ∧
          (∀ j m', j < i → ¬ SpecMatch ((pyStripL t.data).drop j) m') ∧
          r = ⟨rstripPunct m⟩) ∧
      (∀ r c, extrair_doi_de_texto (some t) = some r → r.data.getLast? = some c →
        doiPunct c = false)) := by
  refine ⟨rfl, rfl, fun t => ⟨?_, ?_, ?_⟩⟩
  · by_cases ht : t = ""
    · subst ht
      constructor
      · intro _ i m hsm
        obtain ⟨ds, suf, rrest, hcs, _⟩ := hsm
        simp [pyStripL] at hcs
      · intro _
        rfl
    · simp only [extrair_doi_de_texto, if_neg ht]
      cases hs : searchDoi (pyStripL t.data) with
      | none =>
        exact ⟨fun _ => (searchDoi_eq_none_iff _).mp hs, fun _ => rfl⟩
      | some m0 =>
        constructor
        · intro h
          exact absurd h (by simp)
        · intro hall
          have h2 := (searchDoi_eq_none_iff _).mpr hall
          rw [hs] at h2
          cases h2
  · intro r
    by_cases ht : t = ""
    · subst ht
      constructor
      · intro h
        cases h
      · rintro ⟨i, m, hsm, _, _⟩
        obtain ⟨ds, suf, rrest, hcs, _⟩ := hsm
        simp [pyStripL] at hcs
    · simp only [extrair_doi_de_texto, if_neg ht]
      cases hs : searchDoi (pyStripL t.data) with
      | none =>
        constructor
        · intro h
          exact absurd h (by simp)
        · rintro ⟨i, m, hsm, hmin, _⟩
          have h2 := (searchDoi_eq_some_iff _ m).mpr ⟨i, hsm, hmin⟩
          rw [hs] at h2
          cases h2
      | some m0 =>
        obtain ⟨i0, hsm0, hmin0⟩ := (searchDoi_eq_some_iff _ m0).mp hs
        constructor
        · intro h
          have h' : some (⟨rstripPunct m0⟩ : String) = some r := h
          injection h' with h'
          exact ⟨i0, m0, hsm0, hmin0, h'.symm⟩
        · rintro ⟨i, m, hsm, hmin, hr⟩
          have hii : i = i0 := by
            rcases Nat.lt_trichotomy i i0 with hlt | heq | hgt
            · exact absurd hsm (hmin0 i m hlt)
            · exact heq
            · exact absurd hsm0 (hmin i0 m0 hgt)
          subst hii
          have h1 := matchDoiHere_spec_backward _ _ hsm
          have h2 := matchDoiHere_spec_backward _ _ hsm0
          rw [h1] at h2
          injection h2 with h2
          show some (⟨rstripPunct m0⟩ : String) = some r
          rw [hr, h2]
  · intro r c hr hlast
    by_cases ht : t = ""
    · subst ht
      cases hr
    · simp only [extrair_doi_de_texto, if_neg ht] at hr
      cases hs : searchDoi (pyStripL t.data) with
      | none =>
        rw [hs] at hr
        cases hr
      | some m0 =>
        rw [hs] at hr
        have hr' : some (⟨rstripPunct m0⟩ : String) = some r := hr
        injection hr' with hr'
        rw [← hr'] at hlast
        exact rstripPunct_getLast m0 c (by simpa using hlast)

/-- Witness for C9: a trailing period is stripped, and the concrete match
decomposition exists for a text with a parenthesised DOI. -/
theorem extrair_doi_de_texto_spec_witness :
    doiPunct 'b' = false ∧
    (∃ i m, SpecMatch ((pyStripL ("x 10.1234/ab)." : String).data).drop i) m ∧
      (∀ j m', j < i → ¬ SpecMatch ((pyStripL ("x 10.1234/ab)." : String).data).drop j) m') ∧
      ("10.1234/ab" : String) = ⟨rstripPunct m⟩) :=
  ⟨(extrair_doi_de_texto_spec.2.2 "a 10.1234/ab.").2.2 "10.1234/ab" 'b' (by decide) (by decide),
   ((extrair_doi_de_texto_spec.2.2 "x 10.1234/ab).").2.1 "10.1234/ab").mp (by decide)⟩

end App
